import Mathlib

/-!
# Terraform provider `polycode`: content resource transcoding

A shallow embedding of `provider/resource_content.go`:

* the domain tree of package `content` (`Component` and its payload types),
* the flat attribute representation that `d.Get("container.0")` hands to the serializer,
* `serializeRootComponent` (flat → domain tree) and `deserializeRootComponent`
  (domain tree → flat),
* the schema generator `resourceContentContainer` and the validators of the root attributes,
* the operations `resourceContentCreate`, `resourceContentRead`, `resourceContentUpdate` and
  `resourceContentDelete` over an explicit world (resource data, API calls, writes).

Conventions of the embedding.

* Go slices are Lean lists. For the slices of the domain tree a flag next to the list
  (`ComponentsNil`, `LanguagesNil`, …) records whether the slice is `nil`; a `nil` slice has
  the empty list. The zero value of a struct has `nil` slices, `make` gives a slice that is
  not `nil`. The lists of the flat representation carry no such flag.
* Go `int` values that come from the configuration (`position`) are `Int`. The only
  arithmetic on them is `position - 1` and `key + 1`; with 64-bit wrap-around the store
  at index `position - 1` for `position ≤ 0` is out of range exactly as it is over `Int`,
  so no modulus is needed.
* A `map[string]interface{}` of a schema block is a record with one field per schema key
  (the plugin SDK returns every key of the block's schema, absent lists as empty lists).
* Ranging over a Go map visits the keys in an unspecified order. The serializer takes a
  schedule giving, for every nested call, the order in which the keys `markdown`, `editor`
  and `container` are visited.
* A Go runtime panic (index out of range) is the outcome `panic`.
-/

set_option linter.dupNamespace false

namespace Content

/-- Modelled from the spec: the struct `content.Language` (package `content` is not among
the sources); its fields are those the composite literals of `resource_content.go` set and
the data model of the spec lists. -/
structure Language where
  DefaultCode : String
  Language : String
  Version : String
deriving DecidableEq, Repr

/-- Modelled from the spec: the struct `content.ValidatorInput`, the ordered stdin strings of a
validator. -/
structure ValidatorInput where
  Stdin : List String
  /-- The slice `Stdin` is `nil`. -/
  StdinNil : Bool := false
deriving DecidableEq, Repr

/-- Modelled from the spec: the struct `content.ValidatorOutput`, the ordered expected stdout
strings of a validator. -/
structure ValidatorOutput where
  Stdout : List String
  /-- The slice `Stdout` is `nil`. -/
  StdoutNil : Bool := false
deriving DecidableEq, Repr

/-- Modelled from the spec: the struct `content.Validator`. -/
structure Validator where
  ID : String
  IsHidden : Bool
  Input : ValidatorInput
  Output : ValidatorOutput
deriving DecidableEq, Repr

/-- Modelled from the spec: the struct `content.ItemIdentifier`, a hint item identifier. -/
structure ItemIdentifier where
  ID : String
deriving DecidableEq, Repr

/-- Modelled from the spec: the struct `content.EditorSettings`. -/
structure EditorSettings where
  Languages : List Language
  /-- The slice `Languages` is `nil`. -/
  LanguagesNil : Bool := false
deriving DecidableEq, Repr

/-- Modelled from the spec: the struct `content.Component` of the domain tree (package
`content` is not among the sources), with its `Data content.ComponentData` member flattened
into the record: `Markdown`, `EditorSettings`, `Validators`, `Items` and `Components` are the
fields `Data.Markdown`, `Data.EditorSettings`, `Data.Validators`, `Data.Items` and
`Data.Components` of the source. `Type_` is the field `Type`. The three flags record which of
the slices `Data.Validators`, `Data.Items` and `Data.Components` are `nil`. -/
structure Component where
  ID : String
  Type_ : String
  Orientation : String
  Markdown : String
  EditorSettings : EditorSettings
  Validators : List Validator
  Items : List ItemIdentifier
  Components : List Component
  ValidatorsNil : Bool
  ItemsNil : Bool
  ComponentsNil : Bool
deriving Repr

/-- The zero value of `content.Component`, what `make([]content.Component, n)` is filled with:
empty strings and `nil` slices. -/
def Component.zero : Component :=
  { ID := "", Type_ := "", Orientation := "", Markdown := ""
    EditorSettings := { Languages := [], LanguagesNil := true }
    Validators := [], Items := [], Components := []
    ValidatorsNil := true, ItemsNil := true, ComponentsNil := true }

end Content

namespace Provider

open Content

/-! ## The flat representation -/

/-- One element of a `markdown` list: keys `id`, `position`, `content`. -/
structure FlatMarkdown where
  id : String
  position : Int
  content : String
deriving DecidableEq, Repr

/-- One element of a `language_settings` list. -/
structure FlatLanguage where
  default_code : String
  language : String
  version : String
deriving DecidableEq, Repr

/-- One element of a `validator` list. -/
structure FlatValidator where
  id : String
  inputs : List String
  outputs : List String
  is_hidden : Bool
deriving DecidableEq, Repr

/-- One element of an `editor` list. -/
structure FlatEditor where
  id : String
  position : Int
  language_settings : List FlatLanguage
  hint : List String
  validator : List FlatValidator
deriving DecidableEq, Repr

/-- One element of a `container` list (and the root `container.0`): the map with the keys
`id`, `position`, `orientation`, `markdown`, `editor`, `container`, as the descriptors of
levels 1 to 3 shape it. An element of the `container` list of a level-3 container has the
empty shape of `resourceContentContainer 4` and none of the keys; the type assertions of
the serializer panic on it. Such an element is not a value of this type: every statement
about flat containers is about containers whose entries, at every depth, carry the six
keys. -/
structure FlatContainer where
  id : String
  position : Int
  orientation : String
  markdown : List FlatMarkdown
  editor : List FlatEditor
  container : List FlatContainer
deriving Repr

/-! ## Outcomes of the serializer -/

/-- The two errors `serializeRootComponent` builds with `fmt.Errorf`. -/
inductive SerializeError where
  /-- The error "position %d is greater than the number of child components %d". -/
  | positionTooLarge (position : Int) (length : Nat)
  /-- The error "child component at position %d is missing, ... go from 1 to %d". -/
  | childMissing (position : Nat) (length : Nat)
deriving DecidableEq, Repr

/-- The text of the error, as `fmt.Errorf` formats it. -/
def SerializeError.message : SerializeError → String
  | .positionTooLarge position length =>
    "position " ++ toString position ++ " is greater than the number of child components "
      ++ toString length
  | .childMissing position length =>
    "child component at position " ++ toString position
      ++ " is missing, this is probably due to duplicate position in the container, "
      ++ "please check that your positions go from 1 to " ++ toString length

/-- What a call can do: return a value with a nil error, return an error, or panic at run
time (a slice store out of range). -/
inductive Outcome (α : Type) where
  | ok (value : α)
  | error (err : SerializeError)
  | panic
deriving Repr

/-- Sequencing: the first error or panic ends the computation. -/
def Outcome.bind {α β : Type} : Outcome α → (α → Outcome β) → Outcome β
  | .ok value, f => f value
  | .error err, _ => .error err
  | .panic, _ => .panic

/-- The call returned a value. -/
def Outcome.isOk {α : Type} : Outcome α → Bool
  | .ok _ => true
  | _ => false

/-- The bounds-checked slice store `xs[index] = v` of Go. -/
def storeAt {α : Type} (xs : List α) (index : Int) (v : α) : Outcome (List α) :=
  if 0 ≤ index ∧ index < xs.length then .ok (xs.set index.toNat v) else .panic

/-! ## Key orders -/

/-- The three keys the serializer's `switch` acts on. -/
inductive ChildKey where
  | markdown
  | editor
  | container
deriving DecidableEq, Repr

/-- The relative order in which one `range` over the map visits the three keys. The other
keys of the map (`id`, `position`, `orientation`) match no case of the `switch`, so where
they fall in the iteration changes nothing. -/
inductive KeyOrder where
  | markdownEditorContainer
  | markdownContainerEditor
  | editorMarkdownContainer
  | editorContainerMarkdown
  | containerMarkdownEditor
  | containerEditorMarkdown
deriving DecidableEq, Repr

/-- The keys of an order, first visited first. -/
def KeyOrder.keys : KeyOrder → List ChildKey
  | .markdownEditorContainer => [.markdown, .editor, .container]
  | .markdownContainerEditor => [.markdown, .container, .editor]
  | .editorMarkdownContainer => [.editor, .markdown, .container]
  | .editorContainerMarkdown => [.editor, .container, .markdown]
  | .containerMarkdownEditor => [.container, .markdown, .editor]
  | .containerEditorMarkdown => [.container, .editor, .markdown]

/-- A schedule: the key order of the call that serializes the container reached from the
root by the given path of indices into the successive `container` lists. -/
abbrev Schedule := List Nat → KeyOrder

/-- The schedule seen by the call on the `i`-th entry of the `container` list. -/
def Schedule.nested (sched : Schedule) (i : Nat) : Schedule := fun path => sched (i :: path)

/-! ## The serializer -/

/-- The two slices of `serializeRootComponent`: `childComponents` and `positions`. -/
structure SerializeState where
  childComponents : List Component
  positions : List Bool
deriving Repr

/-- The component the `markdown` case stores; its slices are left `nil`. -/
def markdownComponent (markdown : FlatMarkdown) : Component :=
  { Component.zero with
    ID := markdown.id
    Type_ := "markdown"
    Markdown := markdown.content }

/-- The `languages` slice built from `language_settings`. -/
def serializeLanguages (language_settings : List FlatLanguage) : List Language :=
  language_settings.foldl
    (fun languages language =>
      languages ++ [{ DefaultCode := language.default_code
                      Language := language.language
                      Version := language.version }]) []

/-- The `validators` slice built from `validator`; `inputs` and `outputs` are made with
`make`, so `Stdin` and `Stdout` are not `nil`. -/
def serializeValidators (validator : List FlatValidator) : List Validator :=
  validator.foldl
    (fun validators v =>
      validators ++ [{ ID := v.id
                       IsHidden := v.is_hidden
                       Input := { Stdin := v.inputs, StdinNil := false }
                       Output := { Stdout := v.outputs, StdoutNil := false } }]) []

/-- The `hints` slice built from `hint`. -/
def serializeHints (hint : List String) : List ItemIdentifier :=
  hint.foldl (fun hints item => hints ++ [{ ID := item }]) []

/-- The component the `editor` case stores; `languages`, `validators` and `hints` are made
with `make`, so the three slices are not `nil`. -/
def editorComponent (editor : FlatEditor) : Component :=
  { Component.zero with
    ID := editor.id
    Type_ := "editor"
    EditorSettings :=
      { Languages := serializeLanguages editor.language_settings, LanguagesNil := false }
    Validators := serializeValidators editor.validator
    ValidatorsNil := false
    Items := serializeHints editor.hint
    ItemsNil := false }

/-- The loop of the `markdown` case. -/
def serializeMarkdownEntries (length : Nat) :
    List FlatMarkdown → SerializeState → Outcome SerializeState
  | [], st => .ok st
  | markdown :: rest, st =>
    if markdown.position > length then
      .error (.positionTooLarge markdown.position length)
    else
      (storeAt st.positions (markdown.position - 1) true).bind fun positions =>
      (storeAt st.childComponents (markdown.position - 1) (markdownComponent markdown)).bind
        fun childComponents =>
      serializeMarkdownEntries length rest ⟨childComponents, positions⟩

/-- The loop of the `editor` case. -/
def serializeEditorEntries (length : Nat) :
    List FlatEditor → SerializeState → Outcome SerializeState
  | [], st => .ok st
  | editor :: rest, st =>
    if editor.position > length then
      .error (.positionTooLarge editor.position length)
    else
      (storeAt st.positions (editor.position - 1) true).bind fun positions =>
      (storeAt st.childComponents (editor.position - 1) (editorComponent editor)).bind
        fun childComponents =>
      serializeEditorEntries length rest ⟨childComponents, positions⟩

/-- The outer `for key, val := range rootComponent` with the `switch` body abstracted. -/
def forKeys (body : ChildKey → SerializeState → Outcome SerializeState) :
    List ChildKey → SerializeState → Outcome SerializeState
  | [], st => .ok st
  | key :: rest, st => (body key st).bind (forKeys body rest)

/-- The final scan `for i, position := range positions`: the index of the first `false`. -/
def firstUnfilled : List Bool → Nat → Option Nat
  | [], _ => none
  | position :: rest, i => if !position then some i else firstUnfilled rest (i + 1)

mutual
/-- The function `serializeRootComponent` of the source. -/
def serializeRootComponent (sched : Schedule) : FlatContainer → Outcome Component
  | ⟨id, _, orientation, markdown, editor, container⟩ =>
    let length := markdown.length + editor.length + container.length
    let init : SerializeState :=
      ⟨List.replicate length Component.zero, List.replicate length false⟩
    (forKeys
      (fun key st =>
        match key with
        | .markdown => serializeMarkdownEntries length markdown st
        | .editor => serializeEditorEntries length editor st
        | .container => serializeContainerEntries sched length container 0 st)
      (sched []).keys init).bind fun st =>
    match firstUnfilled st.positions 0 with
    | some i => .error (.childMissing (i + 1) length)
    | none =>
      .ok { Component.zero with
            ID := id
            Orientation := orientation
            Type_ := "container"
            Components := st.childComponents
            ComponentsNil := false }
/-- The loop of the `container` case; `i` is the index of the head entry in the list. -/
def serializeContainerEntries (sched : Schedule) (length : Nat) :
    List FlatContainer → Nat → SerializeState → Outcome SerializeState
  | [], _, st => .ok st
  | container :: rest, i, st =>
    if container.position > length then
      .error (.positionTooLarge container.position length)
    else
      (storeAt st.positions (container.position - 1) true).bind fun positions =>
      (serializeRootComponent (sched.nested i) container).bind fun containerComponent =>
      (storeAt st.childComponents (container.position - 1) containerComponent).bind
        fun childComponents =>
      serializeContainerEntries sched length rest (i + 1) ⟨childComponents, positions⟩
end

/-! ## The deserializer -/

/-- The `languages` list rebuilt from `Data.EditorSettings.Languages`. -/
def deserializeLanguages (languages : List Language) : List FlatLanguage :=
  languages.foldl
    (fun acc language =>
      acc ++ [{ default_code := language.DefaultCode
                language := language.Language
                version := language.Version }]) []

/-- The `validators` list rebuilt from `Data.Validators`. -/
def deserializeValidators (validators : List Validator) : List FlatValidator :=
  validators.foldl
    (fun acc validator =>
      acc ++ [{ id := validator.ID
                is_hidden := validator.IsHidden
                inputs := validator.Input.Stdin
                outputs := validator.Output.Stdout }]) []

/-- The `hints` list rebuilt from `Data.Items`. -/
def deserializeHints (items : List ItemIdentifier) : List String :=
  items.foldl (fun acc item => acc ++ [item.ID]) []

/-- The map the `markdown` case appends for the child at index `key`. -/
def markdownEntry (childComponent : Component) (key : Nat) : FlatMarkdown :=
  { id := childComponent.ID
    content := childComponent.Markdown
    position := (key : Int) + 1 }

/-- The map the `editor` case appends for the child at index `key`. -/
def editorEntry (childComponent : Component) (key : Nat) : FlatEditor :=
  { id := childComponent.ID
    language_settings := deserializeLanguages childComponent.EditorSettings.Languages
    validator := deserializeValidators childComponent.Validators
    hint := deserializeHints childComponent.Items
    position := (key : Int) + 1 }

/-- The three accumulators of `deserializeRootComponent`. -/
structure DeserializeState where
  markdown : List FlatMarkdown
  editor : List FlatEditor
  container : List FlatContainer
deriving Repr

mutual
/-- The function `deserializeRootComponent` of the source. -/
def deserializeRootComponent : Component → Int → List FlatContainer
  | ⟨ID, _, Orientation, _, _, _, _, Components, _, _, _⟩, position =>
    let st := deserializeChildren Components 0 ⟨[], [], []⟩
    [{ id := ID
       orientation := Orientation
       position := position
       markdown := st.markdown
       editor := st.editor
       container := st.container }]
/-- The loop `for key, childComponent := range rootComponent.Data.Components`, from index
`key` on, with the accumulators so far. -/
def deserializeChildren : List Component → Nat → DeserializeState → DeserializeState
  | [], _, st => st
  | childComponent :: rest, key, st =>
    if childComponent.Type_ = "markdown" then
      deserializeChildren rest (key + 1)
        { st with markdown := st.markdown ++ [markdownEntry childComponent key] }
    else if childComponent.Type_ = "editor" then
      deserializeChildren rest (key + 1)
        { st with editor := st.editor ++ [editorEntry childComponent key] }
    else if childComponent.Type_ = "container" then
      deserializeChildren rest (key + 1)
        { st with container := deserializeRootComponent childComponent ((key : Int) + 1) }
    else
      deserializeChildren rest (key + 1) st
end

/-! ## The schema generator -/

/-- The value types of `schema.ValueType` the resource uses. -/
inductive ValueType where
  | TypeString
  | TypeInt
  | TypeBool
  | TypeList
deriving DecidableEq, Repr

mutual
/-- The fields of `schema.Schema` the resource sets (`Description` and `ValidateFunc` left
out); `Elem` is `none`, a nested `*schema.Resource` or a `*schema.Schema` of a primitive. -/
inductive SchemaField where
  | mk (Type_ : ValueType) (Required Optional Computed : Bool) (Elem : SchemaElem)
/-- The value of the `Elem` member of a `schema.Schema`. -/
inductive SchemaElem where
  | none
  | resource (r : Resource)
  | primitive (Type_ : ValueType)
/-- The `Schema` map of a `schema.Resource`, keys in source order. -/
inductive Resource where
  | mk (Schema : List (String × SchemaField))
end

/-- The `Schema` map of a resource. -/
def Resource.Schema : Resource → List (String × SchemaField)
  | .mk s => s

/-- The `Optional` member. -/
def SchemaField.Optional : SchemaField → Bool
  | .mk _ _ o _ _ => o

/-- The `Elem` member. -/
def SchemaField.Elem : SchemaField → SchemaElem
  | .mk _ _ _ _ e => e

/-- The map lookup `r.Schema[key]`. -/
def Resource.field? (r : Resource) (key : String) : Option SchemaField :=
  (r.Schema.find? (fun kv => kv.1 = key)).map (fun kv => kv.2)

/-- The function `resourceContentLanguage`. -/
def resourceContentLanguage : Resource :=
  .mk [("default_code", .mk .TypeString false true false .none),
       ("language", .mk .TypeString true false false .none),
       ("version", .mk .TypeString false true false .none)]

/-- The function `resourceContentValidator`. -/
def resourceContentValidator : Resource :=
  .mk [("id", .mk .TypeString false false true .none),
       ("inputs", .mk .TypeList true false false (.primitive .TypeString)),
       ("outputs", .mk .TypeList true false false (.primitive .TypeString)),
       ("is_hidden", .mk .TypeBool false true false .none)]

/-- The function `resourceContentDataMarkdown`. -/
def resourceContentDataMarkdown : Resource :=
  .mk [("id", .mk .TypeString false false true .none),
       ("position", .mk .TypeInt true false false .none),
       ("content", .mk .TypeString true false false .none)]

/-- The function `resourceContentDataEditor`. -/
def resourceContentDataEditor : Resource :=
  .mk [("id", .mk .TypeString false false true .none),
       ("position", .mk .TypeInt true false false .none),
       ("language_settings", .mk .TypeList true false false (.resource resourceContentLanguage)),
       ("hint", .mk .TypeList false true false (.primitive .TypeString)),
       ("validator", .mk .TypeList false true false (.resource resourceContentValidator))]

/-- The function `resourceContentContainer`: the recursion on `i + 1` stops at `i > 3`. -/
def resourceContentContainer (i : Int) : Resource :=
  if i > 3 then
    .mk []
  else
    .mk [("id", .mk .TypeString false false true .none),
         ("position", .mk .TypeInt true false false .none),
         ("orientation", .mk .TypeString true false false .none),
         ("markdown", .mk .TypeList false true false (.resource resourceContentDataMarkdown)),
         ("editor", .mk .TypeList false true false (.resource resourceContentDataEditor)),
         ("container", .mk .TypeList false true false
            (.resource (resourceContentContainer (i + 1))))]
termination_by (4 - i).toNat
decreasing_by omega

/-- The `ValidateFunc` of every `position` attribute: the errors it returns (none when the
value is accepted). -/
def positionValidateFunc (i : Int) : List String :=
  if i < 0 then ["position must be a positive integer"] else []


/-- The `Type` member. -/
def SchemaField.Type_ : SchemaField → ValueType
  | .mk t _ _ _ _ => t

/-- The `Required` member. -/
def SchemaField.Required : SchemaField → Bool
  | .mk _ r _ _ _ => r

/-- The descriptor in the `Elem` of the `container` key of a descriptor, when it has one. -/
def Resource.containerElem (r : Resource) : Option Resource :=
  match r.field? "container" with
  | some field =>
    match field.Elem with
    | .resource nested => some nested
    | _ => none
  | none => none

/-- The descriptor `depth` container slots below the root descriptor
`resourceContentContainer 1`: nesting level `n` is `descriptorAt (n - 1)`. -/
def descriptorAt : Nat → Option Resource
  | 0 => some (resourceContentContainer 1)
  | depth + 1 => (descriptorAt depth).bind Resource.containerElem

/-- The key is an optional list slot of the descriptor. -/
def Resource.hasOptionalList (r : Resource) (key : String) : Bool :=
  match r.field? key with
  | some field => decide (field.Type_ = .TypeList) && field.Optional && !field.Required
  | none => false

/-- The descriptor has the key. -/
def Resource.hasKey (r : Resource) (key : String) : Bool :=
  (r.field? key).isSome

/-! ## Vocabulary of the statements -/

/-- The `length` computed by the first loop of `serializeRootComponent`: the number of
declared children, summed over the three lists. -/
def FlatContainer.childCount (rootComponent : FlatContainer) : Nat :=
  rootComponent.markdown.length + rootComponent.editor.length + rootComponent.container.length

/-- The positions declared by the children of one level, list by list. -/
def FlatContainer.childPositions (rootComponent : FlatContainer) : List Int :=
  rootComponent.markdown.map (fun m => m.position)
    ++ rootComponent.editor.map (fun e => e.position)
    ++ rootComponent.container.map (fun c => c.position)

/-- The positions `1, 2, …, n`. -/
def oneTo (n : Nat) : List Int := (List.range' 1 n).map Int.ofNat

/-- The declared positions of one level are a permutation of `1..N`. -/
def FlatContainer.levelWellPositioned (rootComponent : FlatContainer) : Prop :=
  List.Perm rootComponent.childPositions (oneTo rootComponent.childCount)

instance (rootComponent : FlatContainer) : Decidable rootComponent.levelWellPositioned :=
  inferInstanceAs (Decidable (List.Perm _ _))

mutual
/-- The declared positions are a permutation of `1..N` at this level and at every nested
container level. -/
def wellPositioned : FlatContainer → Bool
  | ⟨id, position, orientation, markdown, editor, container⟩ =>
    decide (FlatContainer.levelWellPositioned
      ⟨id, position, orientation, markdown, editor, container⟩)
      && wellPositionedAll container
/-- Every container of the list is well positioned. -/
def wellPositionedAll : List FlatContainer → Bool
  | [] => true
  | container :: rest => wellPositioned container && wellPositionedAll rest
end

/-- The container entry reached from a container by a path of indices into the successive
`container` lists. -/
def FlatContainer.descend : FlatContainer → List Nat → Option FlatContainer
  | rootComponent, [] => some rootComponent
  | rootComponent, i :: path =>
    match rootComponent.container[i]? with
    | some k => k.descend path
    | none => none

/-- The schedule seen by the call on the entry at the end of a path. -/
def Schedule.below (sched : Schedule) (path : List Nat) : Schedule :=
  fun rest => sched (path ++ rest)

/-! ## The loops as one run over a list of jobs

The three inner loops have the same shape: check the position against `length`, mark the
slot, obtain the component, store it. `runJobs` is that shape over a list of pairs (declared
position, outcome of building the component); the lemmas below show that the loops of
the source are `runJobs` on the jobs of their list. -/

/-- A child to place: its declared position and the outcome of building its component. -/
abbrev Job := Int × Outcome Component

/-- The common shape of the three inner loops. -/
def runJobs (length : Nat) : List Job → SerializeState → Outcome SerializeState
  | [], st => .ok st
  | job :: rest, st =>
    if job.1 > length then
      .error (.positionTooLarge job.1 length)
    else
      (storeAt st.positions (job.1 - 1) true).bind fun positions =>
      job.2.bind fun component =>
      (storeAt st.childComponents (job.1 - 1) component).bind fun childComponents =>
      runJobs length rest ⟨childComponents, positions⟩

/-- The jobs of a `markdown` list. -/
def markdownJobs (markdown : List FlatMarkdown) : List Job :=
  markdown.map fun m => (m.position, .ok (markdownComponent m))

/-- The jobs of an `editor` list. -/
def editorJobs (editor : List FlatEditor) : List Job :=
  editor.map fun e => (e.position, .ok (editorComponent e))

/-- The jobs of a `container` list whose head has index `i`. -/
def containerJobs (sched : Schedule) : List FlatContainer → Nat → List Job
  | [], _ => []
  | container :: rest, i =>
    (container.position, serializeRootComponent (sched.nested i) container)
      :: containerJobs sched rest (i + 1)

/-- The jobs of one key of the map. -/
def keyJobs (sched : Schedule) (rootComponent : FlatContainer) : ChildKey → List Job
  | .markdown => markdownJobs rootComponent.markdown
  | .editor => editorJobs rootComponent.editor
  | .container => containerJobs sched rootComponent.container 0

/-- The jobs of a list of keys, in order. -/
def keysJobs (sched : Schedule) (rootComponent : FlatContainer) : List ChildKey → List Job
  | [] => []
  | key :: rest => keyJobs sched rootComponent key ++ keysJobs sched rootComponent rest

/-- The jobs of one call, in the order in which the call processes them. -/
def jobs (sched : Schedule) (rootComponent : FlatContainer) : List Job :=
  keysJobs sched rootComponent (sched []).keys

/-- The positions declared by the children of one level, in processing order. -/
def processedPositions (sched : Schedule) (rootComponent : FlatContainer) : List Int :=
  (jobs sched rootComponent).map (fun job => job.1)

/-- The slice index `position - 1` of a position that is at least 1. -/
def slot (position : Int) : Nat := (position - 1).toNat

/-- The two unchecked stores of one placed child. -/
def SerializeState.place (st : SerializeState) (position : Int) (component : Component) :
    SerializeState :=
  ⟨st.childComponents.set (slot position) component, st.positions.set (slot position) true⟩

/-- The state after placing a list of children, in order. -/
def SerializeState.placeAll (st : SerializeState) : List (Int × Component) → SerializeState
  | [] => st
  | w :: rest => (st.place w.1 w.2).placeAll rest

/-- The children a list of jobs places: position and component of every job that built one. -/
def placed : List Job → List (Int × Component)
  | [] => []
  | (position, .ok component) :: rest => (position, component) :: placed rest
  | _ :: rest => placed rest

/-- The state `serializeRootComponent` starts its loops with. -/
def SerializeState.init (length : Nat) : SerializeState :=
  ⟨List.replicate length Component.zero, List.replicate length false⟩

/-- The end of `serializeRootComponent`: the scan of `positions` and the returned value. -/
def finish (id orientation : String) (length : Nat) (st : SerializeState) : Outcome Component :=
  match firstUnfilled st.positions 0 with
  | some i => .error (.childMissing (i + 1) length)
  | none =>
    .ok { Component.zero with
          ID := id
          Orientation := orientation
          Type_ := "container"
          Components := st.childComponents
          ComponentsNil := false }

/-! ## Example inputs -/

/-- A schedule that visits `markdown`, `editor`, `container` in this order at every level. -/
def sourceOrder : Schedule := fun _ => .markdownEditorContainer

/-- A root with an editor at position 1, a nested container at 2 and a markdown at 3. -/
def exampleFlat : FlatContainer :=
  { id := "root", position := 0, orientation := "horizontal"
    markdown := [⟨"m1", 3, "Hello"⟩]
    editor := [⟨"e1", 1, [⟨"print(1)", "PYTHON", "3"⟩], ["h1"], [⟨"v1", ["1 2"], ["3"], true⟩]⟩]
    container := [⟨"c1", 2, "vertical", [⟨"m2", 1, "x"⟩], [], []⟩] }

/-- Three markdown children declared at positions 1, 2, 2. -/
def duplicateFlat : FlatContainer :=
  { id := "root", position := 0, orientation := "horizontal"
    markdown := [⟨"a", 1, "A"⟩, ⟨"b", 2, "B"⟩, ⟨"c", 2, "C"⟩]
    editor := []
    container := [] }

/-- Two markdown children declared at positions 7 and 5, both beyond `N = 2`. -/
def twoOutOfRangeFlat : FlatContainer :=
  { id := "root", position := 0, orientation := "horizontal"
    markdown := [⟨"a", 7, "A"⟩, ⟨"b", 5, "B"⟩]
    editor := []
    container := [] }

/-- Two container children: the first, at position 1, declares a markdown child at position
3 of 1; the second is declared at position 9, beyond `N = 2`. -/
def nestedFirstFlat : FlatContainer :=
  { id := "root", position := 0, orientation := "horizontal"
    markdown := []
    editor := []
    container :=
      [{ id := "c1", position := 1, orientation := "vertical"
         markdown := [⟨"m", 3, "x"⟩]
         editor := []
         container := [] },
       { id := "c2", position := 9, orientation := "vertical"
         markdown := []
         editor := []
         container := [] }] }

/-- One markdown child declared at position 0, which the `position` validator accepts. -/
def zeroPositionFlat : FlatContainer :=
  { id := "root", position := 0, orientation := "horizontal"
    markdown := [⟨"a", 0, "A"⟩]
    editor := []
    container := [] }

/-- A domain container whose children are two empty containers. -/
def twoContainersTree : Component :=
  { Component.zero with
    ID := "root"
    Type_ := "container"
    Orientation := "horizontal"
    Components :=
      [{ Component.zero with ID := "c1", Type_ := "container", Orientation := "vertical" },
       { Component.zero with ID := "c2", Type_ := "container", Orientation := "vertical" }] }

/-- The editor entry of `exampleFlat`: one language, one hint, and the validator with
inputs `["1 2"]`, outputs `["3"]`, hidden. -/
def exampleEditor : FlatEditor :=
  ⟨"e1", 1, [⟨"print(1)", "PYTHON", "3"⟩], ["h1"], [⟨"v1", ["1 2"], ["3"], true⟩]⟩

/-- The component `exampleFlat` serializes to. -/
def exampleTree : Component :=
  { Component.zero with
    ID := "root"
    Type_ := "container"
    Orientation := "horizontal"
    Components :=
      [editorComponent exampleEditor,
       { Component.zero with
         ID := "c1"
         Type_ := "container"
         Orientation := "vertical"
         Components := [markdownComponent ⟨"m2", 1, "x"⟩]
         ComponentsNil := false },
       markdownComponent ⟨"m1", 3, "Hello"⟩]
    ComponentsNil := false }

/-- A root whose only child is a container whose only child is a container that declares
a markdown child at position 5 of 1. -/
def deepFailureFlat : FlatContainer :=
  { id := "root", position := 0, orientation := "horizontal"
    markdown := []
    editor := []
    container :=
      [{ id := "c1", position := 1, orientation := "vertical"
         markdown := []
         editor := []
         container :=
           [{ id := "c2", position := 1, orientation := "vertical"
              markdown := [⟨"m", 5, "x"⟩]
              editor := []
              container := [] }] }] }

/-! ## Root attributes, termination of the generator -/

/-- The `ValidateFunc` of `name`: the errors it returns. `len` of a Go string is its length
in bytes, UTF-8 for configuration strings. -/
def nameValidateFunc (i : String) : List String :=
  if i.utf8ByteSize < 3 then ["name must be at least 3 characters long"] else []

/-- The `ValidateFunc` of `description`. -/
def descriptionValidateFunc (i : String) : List String :=
  if i.utf8ByteSize < 3 then ["description must be at least 3 characters long"] else []

/-- The `ValidateFunc` of `type`. -/
def typeValidateFunc (i : String) : List String :=
  if i ≠ "exercise" then ["type must be exercise (more types will come in the future)"]
  else []

/-- The `ValidateFunc` of `reward`. -/
def rewardValidateFunc (i : Int) : List String :=
  if i < 0 then ["reward must be a positive integer"] else []

/-- The keys of the `Schema` map of a descriptor, in source order. -/
def Resource.keys (r : Resource) : List String :=
  r.Schema.map (fun kv => kv.1)

/-- The descriptor reached from a descriptor by following the `container` slot `depth`
times. -/
def Resource.nestedAt : Resource → Nat → Option Resource
  | r, 0 => some r
  | r, depth + 1 =>
    match r.containerElem with
    | some nested => nested.nestedAt depth
    | none => none

/-- The function `resourceContentContainer` run with a bound on the number of nested
calls: `none` when the bound is reached before the recursion ends. -/
def resourceContentContainerFuel : Nat → Int → Option Resource
  | 0, _ => none
  | fuel + 1, i =>
    if i > 3 then
      some (.mk [])
    else
      match resourceContentContainerFuel fuel (i + 1) with
      | none => none
      | some nested =>
        some (.mk [("id", .mk .TypeString false false true .none),
                   ("position", .mk .TypeInt true false false .none),
                   ("orientation", .mk .TypeString true false false .none),
                   ("markdown", .mk .TypeList false true false
                      (.resource resourceContentDataMarkdown)),
                   ("editor", .mk .TypeList false true false
                      (.resource resourceContentDataEditor)),
                   ("container", .mk .TypeList false true false (.resource nested))])

/-! ## The resource operations

`resourceContentCreate`, `resourceContentRead` and `resourceContentUpdate` act on the
resource data `d` and on the remote API through the client `m`. Both are made explicit: a
world holds the resource data together with the log of the API calls made and of the writes
done to the resource data; an operation maps a world to the diagnostics it returns and the
world it leaves, or panics. Log lines (`tflog`) are left out. -/

/-- Modelled from the spec: the struct `content.Content`, the root aggregate sent to and
received from the remote API (package `content` is not among the sources); the always empty
`Data` member is left out. -/
structure ContentRecord where
  ID : String
  Name : String
  Description : String
  Type_ : String
  Reward : Int
  RootComponent : Component
deriving Repr

/-- Modelled from the spec: the API client `pc.Client` (package `client` is not among the
sources), as the answers of the remote API to the four calls of the spec's collaborator
contract; an answer is the returned value or the text of the error. -/
structure Client where
  CreateContent : ContentRecord → Except String ContentRecord
  GetContent : String → Except String ContentRecord
  UpdateContent : ContentRecord → Except String ContentRecord
  DeleteContent : String → Option String

/-- A call made to the remote API. -/
inductive ApiCall where
  | CreateContent (co : ContentRecord)
  | GetContent (id : String)
  | UpdateContent (co : ContentRecord)
  | DeleteContent (id : String)
deriving Repr

/-- The attributes of the resource data the operations read and write. -/
structure ResourceData where
  id : String
  name : String
  description : String
  type_ : String
  reward : Int
  container : List FlatContainer
  last_update : String
deriving Repr

/-- A value handed to `d.Set`. -/
inductive AttrValue where
  | str (s : String)
  | int (n : Int)
  | containers (l : List FlatContainer)
deriving Repr

/-- A write done to the resource data: `d.SetId` or a successful `d.Set`. -/
inductive DataWrite where
  | SetId (id : String)
  | Set (key : String) (value : AttrValue)
deriving Repr

/-- What surrounds an operation: the client, the error `d.Set` returns for a key (none when
it succeeds) and the text of `time.Now().Format(time.RFC850)`. -/
structure Env where
  client : Client
  setError : String → Option String
  now : String

/-- The resource data with the log of API calls and of writes, oldest first. -/
structure World where
  d : ResourceData
  calls : List ApiCall
  writes : List DataWrite
deriving Repr

/-- The severity of a diagnostic. -/
inductive Severity where
  | Error
  | Warning
deriving DecidableEq, Repr

/-- The struct `diag.Diagnostic`. -/
structure Diagnostic where
  Severity : Severity
  Summary : String
  Detail : String
deriving DecidableEq, Repr

/-- What an operation does: return its diagnostics, or panic; in both cases in a world. -/
inductive OpOutcome where
  | returned (diags : List Diagnostic) (w : World)
  | panicked (w : World)
deriving Repr

/-- The world after a call to the remote API. -/
def World.call (w : World) (c : ApiCall) : World :=
  { w with calls := w.calls ++ [c] }

/-- The resource data after `d.Set(key, value)` succeeded. -/
def ResourceData.set (d : ResourceData) (key : String) (value : AttrValue) : ResourceData :=
  match key, value with
  | "name", .str s => { d with name := s }
  | "description", .str s => { d with description := s }
  | "type", .str s => { d with type_ := s }
  | "reward", .int n => { d with reward := n }
  | "container", .containers l => { d with container := l }
  | "last_update", .str s => { d with last_update := s }
  | _, _ => d

/-- The call `d.Set(key, value)`: the error it returns, if any, and the world after it. -/
def World.set (env : Env) (w : World) (key : String) (value : AttrValue) :
    Option String × World :=
  match env.setError key with
  | some err => (some err, w)
  | none =>
    (none, { w with d := w.d.set key value, writes := w.writes ++ [.Set key value] })

/-- The call `d.SetId(id)`. -/
def World.setId (w : World) (id : String) : World :=
  { w with d := { w.d with id := id }, writes := w.writes ++ [.SetId id] }

/-- The error diagnostic the operations append. -/
def errorDiagnostic (summary detail : String) : Diagnostic :=
  { Severity := .Error, Summary := summary, Detail := detail }

/-- The function `resourceContentRead`. -/
def resourceContentRead (env : Env) (w : World) : OpOutcome :=
  let w1 := w.call (.GetContent w.d.id)
  match env.client.GetContent w.d.id with
  | .error err =>
    .returned [errorDiagnostic "Unable to get Content" ("Error when getting Content: " ++ err)]
      w1
  | .ok content =>
    match w1.set env "name" (.str content.Name) with
    | (some err, w2) =>
      .returned [errorDiagnostic "Unable to set name" ("Error when setting name: " ++ err)] w2
    | (none, w2) =>
    match w2.set env "description" (.str content.Description) with
    | (some err, w3) =>
      .returned [errorDiagnostic "Unable to set description"
        ("Error when setting description: " ++ err)] w3
    | (none, w3) =>
    match w3.set env "type" (.str content.Type_) with
    | (some err, w4) =>
      .returned [errorDiagnostic "Unable to set type" ("Error when setting type: " ++ err)] w4
    | (none, w4) =>
    match w4.set env "reward" (.int content.Reward) with
    | (some err, w5) =>
      .returned [errorDiagnostic "Unable to set reward" ("Error when setting reward: " ++ err)]
        w5
    | (none, w5) =>
    match w5.set env "container"
        (.containers (deserializeRootComponent content.RootComponent 0)) with
    | (some err, w6) =>
      .returned [errorDiagnostic "Unable to set container"
        ("Error when setting container: " ++ err)] w6
    | (none, w6) => .returned [] w6

/-- The diagnostic of a serialization error. -/
def serializeDiagnostic (err : SerializeError) : Diagnostic :=
  errorDiagnostic "Unable to serialize child components"
    ("Error when serializing child components: " ++ err.message)

/-- The function `resourceContentCreate`; `d.Get("container.0")` asserted to a map panics when
the list is empty. -/
def resourceContentCreate (sched : Schedule) (env : Env) (w : World) : OpOutcome :=
  match w.d.container.head? with
  | none => .panicked w
  | some container0 =>
    match serializeRootComponent sched container0 with
    | .panic => .panicked w
    | .error err => .returned [serializeDiagnostic err] w
    | .ok rootComponent =>
      let co : ContentRecord :=
        { ID := ""
          Name := w.d.name
          Description := w.d.description
          Type_ := w.d.type_
          Reward := w.d.reward
          RootComponent := rootComponent }
      let w1 := w.call (.CreateContent co)
      match env.client.CreateContent co with
      | .error err =>
        .returned [errorDiagnostic "Unable to create content"
          ("Error when creating content: " ++ err)] w1
      | .ok createdContent => resourceContentRead env (w1.setId createdContent.ID)

/-- The function `resourceContentUpdate`. -/
def resourceContentUpdate (sched : Schedule) (env : Env) (w : World) : OpOutcome :=
  match w.d.container.head? with
  | none => .panicked w
  | some container0 =>
    match serializeRootComponent sched container0 with
    | .panic => .panicked w
    | .error err => .returned [serializeDiagnostic err] w
    | .ok rootComponent =>
      let co : ContentRecord :=
        { ID := w.d.id
          Name := w.d.name
          Description := w.d.description
          Type_ := w.d.type_
          Reward := w.d.reward
          RootComponent := rootComponent }
      let w1 := w.call (.UpdateContent co)
      match env.client.UpdateContent co with
      | .error err =>
        .returned [errorDiagnostic "Unable to update content"
          ("Error when updating content: " ++ err)] w1
      | .ok _ =>
        match w1.set env "last_update" (.str env.now) with
        | (some err, w2) =>
          .returned [errorDiagnostic "Unable to set last_update"
            ("Error when setting last_update: " ++ err)] w2
        | (none, w2) => resourceContentRead env w2

/-- The function `resourceContentDelete`. -/
def resourceContentDelete (env : Env) (w : World) : OpOutcome :=
  let w1 := w.call (.DeleteContent w.d.id)
  match env.client.DeleteContent w.d.id with
  | some err =>
    .returned [errorDiagnostic "Unable to delete Content"
      ("Error when deleting Content: " ++ err)] w1
  | none => .returned [] w1

/-- A remote API that refuses every call. -/
def refusingClient : Client :=
  { CreateContent := fun _ => .error "refused"
    GetContent := fun _ => .error "refused"
    UpdateContent := fun _ => .error "refused"
    DeleteContent := fun _ => some "refused" }

/-- A remote API that stores nothing: it answers a create or update with the content
under the id `"42"` and a read with an empty root container. -/
def echoClient : Client :=
  { CreateContent := fun co => .ok { co with ID := "42" }
    GetContent := fun id =>
      .ok { ID := id, Name := "n", Description := "d", Type_ := "exercise", Reward := 0
            RootComponent := { Component.zero with ID := "root", Type_ := "container" } }
    UpdateContent := fun co => .ok co
    DeleteContent := fun _ => none }

/-- A create request whose root container declares positions 1, 2, 2. -/
def duplicateRequest : World :=
  { d := { id := "", name := "abc", description := "def", type_ := "exercise", reward := 1
           container := [duplicateFlat], last_update := "" }
    calls := []
    writes := [] }

/-- A schedule that visits `container`, `editor`, `markdown` in this order at every level. -/
def reverseOrder : Schedule := fun _ => .containerEditorMarkdown

/-! ## Trees of the restricted round trip -/

/-- A markdown leaf that carries only the fields of its type: no orientation, no editor
payload, no children. -/
def isMarkdownLeaf (c : Component) : Bool :=
  decide (c.Type_ = "markdown") && decide (c.Orientation = "")
    && c.EditorSettings.Languages.isEmpty && c.Validators.isEmpty && c.Items.isEmpty
    && c.Components.isEmpty

/-- An editor leaf that carries only the fields of its type: no orientation, no markdown
text, no children. -/
def isEditorLeaf (c : Component) : Bool :=
  decide (c.Type_ = "editor") && decide (c.Orientation = "") && decide (c.Markdown = "")
    && c.Components.isEmpty

/-- The component has type `container`. -/
def isContainerType (c : Component) : Bool :=
  decide (c.Type_ = "container")

mutual
/-- A container that carries only children (and its id and orientation), has at most one
container-typed child, and whose children are markdown leaves, editor leaves or, in turn,
such containers. -/
def restrictedTree : Component → Bool
  | ⟨_, Type_, _, Markdown, EditorSettings, Validators, Items, Components, _, _, _⟩ =>
    decide (Type_ = "container") && decide (Markdown = "")
      && EditorSettings.Languages.isEmpty && Validators.isEmpty && Items.isEmpty
      && decide (Components.countP isContainerType ≤ 1)
      && restrictedChildren Components
/-- Every child is a markdown leaf, an editor leaf or a restricted container. -/
def restrictedChildren : List Component → Bool
  | [] => true
  | child :: rest =>
    (isMarkdownLeaf child || isEditorLeaf child || restrictedTree child)
      && restrictedChildren rest
end

/-- A restricted tree: a root with an editor, a nested container holding a markdown, and
a markdown. It is `exampleTree`. -/
def restrictedExample : Component := exampleTree

/-- The validator with `Stdin` and `Stdout` not `nil`, as the serializer builds it. -/
def allocatedValidator (v : Validator) : Validator :=
  { v with
    Input := { Stdin := v.Input.Stdin, StdinNil := false }
    Output := { Stdout := v.Output.Stdout, StdoutNil := false } }

mutual
/-- The component with the same elements in which every slice is `nil` or not as the
serializer leaves it in a component of that type. In a container, `Components` is not
`nil` (made with `make`) and the other slices are `nil`. In an editor, `Languages`,
`Validators`, `Items` and the `Stdin` and `Stdout` of every validator are not `nil` and
`Components` is `nil`. In any other component every slice is `nil`. -/
def reallocate : Component → Component
  | ⟨ID, Type_, Orientation, Markdown, EditorSettings, Validators, Items, Components, _, _, _⟩ =>
    if Type_ = "container" then
      { ID := ID, Type_ := Type_, Orientation := Orientation, Markdown := Markdown
        EditorSettings := { Languages := EditorSettings.Languages, LanguagesNil := true }
        Validators := Validators, Items := Items
        Components := reallocateAll Components
        ValidatorsNil := true, ItemsNil := true, ComponentsNil := false }
    else if Type_ = "editor" then
      { ID := ID, Type_ := Type_, Orientation := Orientation, Markdown := Markdown
        EditorSettings := { Languages := EditorSettings.Languages, LanguagesNil := false }
        Validators := Validators.map allocatedValidator, Items := Items
        Components := reallocateAll Components
        ValidatorsNil := false, ItemsNil := false, ComponentsNil := true }
    else
      { ID := ID, Type_ := Type_, Orientation := Orientation, Markdown := Markdown
        EditorSettings := { Languages := EditorSettings.Languages, LanguagesNil := true }
        Validators := Validators, Items := Items
        Components := reallocateAll Components
        ValidatorsNil := true, ItemsNil := true, ComponentsNil := true }
/-- The components of a list, each reallocated. -/
def reallocateAll : List Component → List Component
  | [] => []
  | c :: rest => reallocate c :: reallocateAll rest
end

mutual
/-- The component with the same elements and no slice `nil`: what is left of a component
when a `nil` slice and an empty one are not told apart. -/
def eraseNil : Component → Component
  | ⟨ID, Type_, Orientation, Markdown, EditorSettings, Validators, Items, Components, _, _, _⟩ =>
    { ID := ID, Type_ := Type_, Orientation := Orientation, Markdown := Markdown
      EditorSettings := { Languages := EditorSettings.Languages, LanguagesNil := false }
      Validators := Validators.map allocatedValidator, Items := Items
      Components := eraseNilAll Components
      ValidatorsNil := false, ItemsNil := false, ComponentsNil := false }
/-- The components of a list, each with no slice `nil`. -/
def eraseNilAll : List Component → List Component
  | [] => []
  | c :: rest => eraseNil c :: eraseNilAll rest
end

/-- A childless root container whose `Components` slice is `nil`. -/
def nilChildrenTree : Component :=
  { Component.zero with ID := "root", Type_ := "container", Orientation := "horizontal" }

/-- A root container whose only child is an editor with `nil` `Languages`, `Validators`
and `Items`. -/
def nilEditorTree : Component :=
  { Component.zero with
    ID := "root"
    Type_ := "container"
    Orientation := "horizontal"
    Components := [{ Component.zero with ID := "e", Type_ := "editor" }]
    ComponentsNil := false }

/-- Three markdown children declared at positions 1, 5 and 0, with `N = 3`: the second is
out of range, the third, processed after it, is below 1. -/
def outOfRangeThenZeroFlat : FlatContainer :=
  { id := "root", position := 0, orientation := "horizontal"
    markdown := [⟨"a", 1, "A"⟩, ⟨"b", 5, "B"⟩, ⟨"c", 0, "C"⟩]
    editor := []
    container := [] }

/-- A create or update request whose root container declares a markdown child at
position 0. -/
def zeroPositionRequest : World :=
  { d := { id := "", name := "abc", description := "def", type_ := "exercise", reward := 1
           container := [zeroPositionFlat], last_update := "" }
    calls := []
    writes := [] }

/-! # Theorems -/

/-! ## Outcomes and stores -/

@[simp]
theorem Outcome.bind_ok {α β : Type} (a : α) (f : α → Outcome β) :
    (Outcome.ok a).bind f = f a := rfl

@[simp]
theorem Outcome.bind_error {α β : Type} (e : SerializeError) (f : α → Outcome β) :
    (Outcome.error e : Outcome α).bind f = .error e := rfl

@[simp]
theorem Outcome.bind_panic {α β : Type} (f : α → Outcome β) :
    (Outcome.panic : Outcome α).bind f = .panic := rfl

theorem Outcome.bind_assoc {α β γ : Type} (x : Outcome α) (f : α → Outcome β)
    (g : β → Outcome γ) : (x.bind f).bind g = x.bind (fun a => (f a).bind g) := by
  cases x <;> rfl

theorem Outcome.bind_eq_ok {α β : Type} {x : Outcome α} {f : α → Outcome β} {b : β} :
    x.bind f = .ok b ↔ ∃ a, x = .ok a ∧ f a = .ok b := by
  cases x <;> simp

theorem storeAt_inRange {α : Type} (xs : List α) (position : Int) (v : α)
    (h1 : 1 ≤ position) (h2 : position ≤ xs.length) :
    storeAt xs (position - 1) v = .ok (xs.set (slot position) v) := by
  unfold storeAt
  rw [if_pos]
  · rfl
  · omega

theorem storeAt_nonPositive {α : Type} (xs : List α) (position : Int) (v : α)
    (h : position ≤ 0) : storeAt xs (position - 1) v = .panic := by
  unfold storeAt
  rw [if_neg]
  omega

theorem storeAt_eq_ok {α : Type} {xs ys : List α} {index : Int} {v : α}
    (h : storeAt xs index v = .ok ys) :
    0 ≤ index ∧ index < xs.length ∧ ys = xs.set index.toNat v := by
  unfold storeAt at h
  split at h
  · rename_i hb
    simp only [Outcome.ok.injEq] at h
    exact ⟨hb.1, hb.2, h.symm⟩
  · cases h

/-! ## The loops of the source are runs of jobs -/

theorem serializeMarkdownEntries_eq_runJobs (length : Nat) (markdown : List FlatMarkdown)
    (st : SerializeState) :
    serializeMarkdownEntries length markdown st = runJobs length (markdownJobs markdown) st := by
  induction markdown generalizing st with
  | nil => rfl
  | cons m rest ih =>
    simp only [serializeMarkdownEntries, markdownJobs, List.map_cons, runJobs, Outcome.bind_ok]
    simp only [markdownJobs] at ih
    simp only [ih]

theorem serializeEditorEntries_eq_runJobs (length : Nat) (editor : List FlatEditor)
    (st : SerializeState) :
    serializeEditorEntries length editor st = runJobs length (editorJobs editor) st := by
  induction editor generalizing st with
  | nil => rfl
  | cons e rest ih =>
    simp only [serializeEditorEntries, editorJobs, List.map_cons, runJobs, Outcome.bind_ok]
    simp only [editorJobs] at ih
    simp only [ih]

theorem serializeContainerEntries_eq_runJobs (sched : Schedule) (length : Nat)
    (container : List FlatContainer) (i : Nat) (st : SerializeState) :
    serializeContainerEntries sched length container i st
      = runJobs length (containerJobs sched container i) st := by
  induction container generalizing i st with
  | nil => simp [serializeContainerEntries, containerJobs, runJobs]
  | cons c rest ih =>
    simp only [serializeContainerEntries, containerJobs, runJobs]
    simp only [ih]

theorem runJobs_append (length : Nat) (a b : List Job) (st : SerializeState) :
    runJobs length (a ++ b) st = (runJobs length a st).bind (runJobs length b) := by
  induction a generalizing st with
  | nil => rfl
  | cons job rest ih =>
    simp only [List.cons_append, runJobs]
    split
    · rfl
    · simp only [Outcome.bind_assoc, List.append_eq, ih]

theorem forKeys_eq_runJobs (sched : Schedule) (rootComponent : FlatContainer)
    (keys : List ChildKey) (st : SerializeState) :
    forKeys
      (fun key st =>
        match key with
        | .markdown =>
          serializeMarkdownEntries rootComponent.childCount rootComponent.markdown st
        | .editor => serializeEditorEntries rootComponent.childCount rootComponent.editor st
        | .container =>
          serializeContainerEntries sched rootComponent.childCount rootComponent.container 0 st)
      keys st
      = runJobs rootComponent.childCount (keysJobs sched rootComponent keys) st := by
  induction keys generalizing st with
  | nil => rfl
  | cons key rest ih =>
    simp only [forKeys, keysJobs, runJobs_append]
    congr 1
    · cases key
      · exact serializeMarkdownEntries_eq_runJobs _ _ _
      · exact serializeEditorEntries_eq_runJobs _ _ _
      · exact serializeContainerEntries_eq_runJobs _ _ _ _ _
    · funext st2
      exact ih st2

/-- The serializer is one run over the jobs of the call followed by the final scan. -/
theorem serializeRootComponent_eq (sched : Schedule) (rootComponent : FlatContainer) :
    serializeRootComponent sched rootComponent
      = (runJobs rootComponent.childCount (jobs sched rootComponent)
          (SerializeState.init rootComponent.childCount)).bind
          (finish rootComponent.id rootComponent.orientation rootComponent.childCount) := by
  cases rootComponent with
  | mk id position orientation markdown editor container =>
    rw [serializeRootComponent]
    have h := forKeys_eq_runJobs sched ⟨id, position, orientation, markdown, editor, container⟩
      (sched []).keys
      (SerializeState.init (markdown.length + editor.length + container.length))
    simp only [FlatContainer.childCount] at h
    simp only [FlatContainer.childCount, jobs, SerializeState.init] at h ⊢
    rw [h]
    rfl

/-! ## What a run of jobs computes -/

theorem place_childComponents_length (st : SerializeState) (position : Int) (c : Component) :
    (st.place position c).childComponents.length = st.childComponents.length := by
  simp [SerializeState.place]

theorem place_positions_length (st : SerializeState) (position : Int) (c : Component) :
    (st.place position c).positions.length = st.positions.length := by
  simp [SerializeState.place]

theorem placeAll_childComponents_length (st : SerializeState) (ws : List (Int × Component)) :
    (st.placeAll ws).childComponents.length = st.childComponents.length := by
  induction ws generalizing st with
  | nil => rfl
  | cons w rest ih => simp [SerializeState.placeAll, ih, place_childComponents_length]

theorem placeAll_positions_length (st : SerializeState) (ws : List (Int × Component)) :
    (st.placeAll ws).positions.length = st.positions.length := by
  induction ws generalizing st with
  | nil => rfl
  | cons w rest ih => simp [SerializeState.placeAll, ih, place_positions_length]

/-- A run returns a state exactly when every job has its position in `1..length` and built
its component; the state is then the initial one with every child placed. -/
theorem runJobs_eq_ok_iff (length : Nat) (js : List Job) (st st2 : SerializeState)
    (hc : st.childComponents.length = length) (hp : st.positions.length = length) :
    runJobs length js st = .ok st2 ↔
      (∀ job ∈ js, 1 ≤ job.1 ∧ job.1 ≤ length ∧ ∃ c, job.2 = .ok c)
        ∧ st2 = st.placeAll (placed js) := by
  induction js generalizing st with
  | nil => simp [runJobs, placed, SerializeState.placeAll, eq_comm]
  | cons job rest ih =>
    obtain ⟨position, outcome⟩ := job
    simp only [runJobs, List.mem_cons, forall_eq_or_imp]
    by_cases hgt : position > (length : Int)
    · simp only [hgt, if_true]
      constructor
      · intro h; cases h
      · rintro ⟨⟨⟨-, hle, -⟩, -⟩, -⟩; omega
    · simp only [hgt, if_false]
      by_cases h1 : 1 ≤ position
      · rw [storeAt_inRange _ _ _ h1 (by omega), Outcome.bind_ok]
        cases outcome with
        | ok c =>
          rw [Outcome.bind_ok, storeAt_inRange _ _ _ h1 (by omega), Outcome.bind_ok]
          rw [ih _ (by simp [hc]) (by simp [hp])]
          simp only [placed, SerializeState.placeAll, SerializeState.place]
          constructor
          · rintro ⟨hall, heq⟩
            exact ⟨⟨⟨h1, by omega, c, rfl⟩, hall⟩, heq⟩
          · rintro ⟨⟨-, hall⟩, heq⟩
            exact ⟨hall, heq⟩
        | error e =>
          simp only [Outcome.bind_error]
          constructor
          · intro h; cases h
          · rintro ⟨⟨⟨-, -, c, hc2⟩, -⟩, -⟩; cases hc2
        | panic =>
          simp only [Outcome.bind_panic]
          constructor
          · intro h; cases h
          · rintro ⟨⟨⟨-, -, c, hc2⟩, -⟩, -⟩; cases hc2
      · rw [storeAt_nonPositive _ _ _ (by omega), Outcome.bind_panic]
        constructor
        · intro h; cases h
        · rintro ⟨⟨⟨h1b, -, -⟩, -⟩, -⟩; omega

/-- With every position at least 1 and every component built, a run stops at the first job
whose position exceeds `length`, with the out-of-range error naming it. -/
theorem runJobs_of_positive (length : Nat) (js : List Job) (st : SerializeState)
    (hc : st.childComponents.length = length) (hp : st.positions.length = length)
    (hjs : ∀ job ∈ js, 1 ≤ job.1 ∧ ∃ c, job.2 = .ok c) :
    runJobs length js st =
      match js.find? (fun job => decide ((length : Int) < job.1)) with
      | some job => .error (.positionTooLarge job.1 length)
      | none => .ok (st.placeAll (placed js)) := by
  induction js generalizing st with
  | nil => rfl
  | cons job rest ih =>
    obtain ⟨position, outcome⟩ := job
    obtain ⟨⟨h1, c, hco⟩, hrest⟩ := List.forall_mem_cons.1 hjs
    simp only at h1 hco
    subst hco
    simp only [runJobs]
    by_cases hgt : position > (length : Int)
    · have : decide ((length : Int) < position) = true := by simpa using hgt
      simp [hgt, List.find?_cons, this]
    · have : decide ((length : Int) < position) = false := by simpa using hgt
      simp only [hgt, if_false, List.find?_cons, this]
      rw [storeAt_inRange _ _ _ h1 (by omega), Outcome.bind_ok, Outcome.bind_ok,
        storeAt_inRange _ _ _ h1 (by omega), Outcome.bind_ok]
      rw [ih _ (by simp [hc]) (by simp [hp]) hrest]
      rfl

theorem placeAll_positions_filled (st : SerializeState) (ws : List (Int × Component)) (i : Nat)
    (hi : i < st.positions.length) :
    (st.placeAll ws).positions[i]? = some true ↔
      st.positions[i]? = some true ∨ ∃ w ∈ ws, slot w.1 = i := by
  induction ws generalizing st with
  | nil => simp [SerializeState.placeAll]
  | cons w rest ih =>
    simp only [SerializeState.placeAll, List.mem_cons, exists_eq_or_imp]
    rw [ih _ (by simpa [place_positions_length] using hi)]
    simp only [SerializeState.place, List.getElem?_set]
    by_cases hw : slot w.1 = i
    · subst hw
      simp [hi]
    · simp [hw]

theorem placeAll_childComponents_untouched (st : SerializeState) (ws : List (Int × Component))
    (i : Nat) (h : ∀ w ∈ ws, slot w.1 ≠ i) :
    (st.placeAll ws).childComponents[i]? = st.childComponents[i]? := by
  induction ws generalizing st with
  | nil => rfl
  | cons w rest ih =>
    obtain ⟨hw, hrest⟩ := List.forall_mem_cons.1 h
    simp only [SerializeState.placeAll]
    rw [ih _ hrest]
    simp [SerializeState.place, hw]

/-- When no two placed children share a slot, every child ends in its own slot. -/
theorem placeAll_childComponents_of_nodup (st : SerializeState) (ws : List (Int × Component))
    (hnd : (ws.map (fun w => slot w.1)).Nodup) (w : Int × Component) (hw : w ∈ ws)
    (hlt : slot w.1 < st.childComponents.length) :
    (st.placeAll ws).childComponents[slot w.1]? = some w.2 := by
  induction ws generalizing st with
  | nil => cases hw
  | cons w0 rest ih =>
    simp only [List.map_cons, List.nodup_cons, List.mem_map, not_exists, not_and] at hnd
    simp only [SerializeState.placeAll]
    rcases List.mem_cons.1 hw with heq | hmem
    · subst heq
      rw [placeAll_childComponents_untouched _ _ _ (fun w2 hw2 => hnd.1 w2 hw2)]
      simp [SerializeState.place, hlt]
    · exact ih _ hnd.2 hmem (by simpa [place_childComponents_length] using hlt)

theorem firstUnfilled_eq_none (ps : List Bool) (k : Nat) :
    firstUnfilled ps k = none ↔ ∀ i, i < ps.length → ps[i]? = some true := by
  induction ps generalizing k with
  | nil => simp [firstUnfilled]
  | cons b rest ih =>
    simp only [firstUnfilled]
    cases b
    · simp only [Bool.not_false, if_true]
      constructor
      · intro h; cases h
      · intro h
        have := h 0 (by simp)
        simp at this
    · simp only [Bool.not_true, Bool.false_eq_true, if_false, ih]
      constructor
      · intro h i hi
        cases i with
        | zero => simp
        | succ j => simpa using h j (by simpa using hi)
      · intro h i hi
        simpa using h (i + 1) (by simpa using hi)

theorem firstUnfilled_eq_some (ps : List Bool) (k i : Nat) (h : firstUnfilled ps k = some i) :
    ∃ j, i = k + j ∧ ps[j]? = some false ∧ ∀ j2, j2 < j → ps[j2]? = some true := by
  induction ps generalizing k with
  | nil => simp [firstUnfilled] at h
  | cons b rest ih =>
    simp only [firstUnfilled] at h
    cases b
    · simp only [Bool.not_false, if_true, Option.some.injEq] at h
      exact ⟨0, by omega, by simp, by intro j2 hj2; omega⟩
    · simp only [Bool.not_true, Bool.false_eq_true, if_false] at h
      obtain ⟨j, hj, hf, hall⟩ := ih _ h
      refine ⟨j + 1, by omega, by simpa using hf, ?_⟩
      intro j2 hj2
      cases j2 with
      | zero => simp
      | succ j3 => simpa using hall j3 (by omega)

/-! ## The jobs of a call -/

theorem mem_oneTo (n : Nat) (p : Int) : p ∈ oneTo n ↔ 1 ≤ p ∧ p ≤ n := by
  simp only [oneTo, List.mem_map, List.mem_range'_1]
  constructor
  · rintro ⟨m, ⟨h1, h2⟩, rfl⟩
    simp only [Int.ofNat_eq_coe]
    omega
  · rintro ⟨h1, h2⟩
    exact ⟨p.toNat, by omega, by simp only [Int.ofNat_eq_coe]; omega⟩

theorem nodup_oneTo (n : Nat) : (oneTo n).Nodup := by
  unfold oneTo
  refine List.Nodup.map ?_ (List.nodup_range' 1 n)
  intro a b h
  simpa using h

theorem length_oneTo (n : Nat) : (oneTo n).length = n := by
  simp [oneTo]

theorem containerJobs_positions (sched : Schedule) (container : List FlatContainer) (i : Nat) :
    (containerJobs sched container i).map (fun job => job.1)
      = container.map (fun c => c.position) := by
  induction container generalizing i with
  | nil => rfl
  | cons c rest ih => simp [containerJobs, ih]

theorem keyJobs_positions (sched : Schedule) (rootComponent : FlatContainer) (key : ChildKey) :
    (keyJobs sched rootComponent key).map (fun job => job.1) =
      match key with
      | .markdown => rootComponent.markdown.map (fun m => m.position)
      | .editor => rootComponent.editor.map (fun e => e.position)
      | .container => rootComponent.container.map (fun c => c.position) := by
  cases key
  · simp [keyJobs, markdownJobs]
  · simp [keyJobs, editorJobs]
  · simp [keyJobs, containerJobs_positions]

/-- The positions in processing order are a rearrangement of the declared positions. -/
theorem processedPositions_perm (sched : Schedule) (rootComponent : FlatContainer) :
    List.Perm (processedPositions sched rootComponent) rootComponent.childPositions := by
  unfold processedPositions jobs FlatContainer.childPositions
  rw [← Multiset.coe_eq_coe]
  cases sched [] <;>
    simp only [KeyOrder.keys, keysJobs, List.map_append, keyJobs_positions, List.map_nil,
      List.append_nil, ← Multiset.coe_add] <;>
    abel

theorem mem_keys (order : KeyOrder) (key : ChildKey) : key ∈ order.keys := by
  cases order <;> cases key <;> simp [KeyOrder.keys]

theorem mem_keysJobs (sched : Schedule) (rootComponent : FlatContainer) (keys : List ChildKey)
    (job : Job) :
    job ∈ keysJobs sched rootComponent keys ↔
      ∃ key ∈ keys, job ∈ keyJobs sched rootComponent key := by
  induction keys with
  | nil => simp [keysJobs]
  | cons key rest ih => simp [keysJobs, ih]

theorem mem_containerJobs (sched : Schedule) (container : List FlatContainer) (i : Nat)
    (job : Job) :
    job ∈ containerJobs sched container i ↔
      ∃ j c, container[j]? = some c
        ∧ job = (c.position, serializeRootComponent (sched.nested (i + j)) c) := by
  induction container generalizing i with
  | nil => simp [containerJobs]
  | cons c rest ih =>
    simp only [containerJobs, List.mem_cons, ih]
    constructor
    · rintro (h | ⟨j, c2, hj, h⟩)
      · exact ⟨0, c, by simp, by simpa using h⟩
      · exact ⟨j + 1, c2, by simpa using hj, by rw [h, show i + 1 + j = i + (j + 1) by omega]⟩
    · rintro ⟨j, c2, hj, h⟩
      cases j with
      | zero =>
        simp only [List.getElem?_cons_zero, Option.some.injEq] at hj
        subst hj
        left
        simpa using h
      | succ j2 =>
        right
        exact ⟨j2, c2, by simpa using hj, by rw [h, show i + 1 + j2 = i + (j2 + 1) by omega]⟩

/-- Every job of a call comes from an entry of one of the three lists. -/
theorem mem_jobs (sched : Schedule) (rootComponent : FlatContainer) (job : Job) :
    job ∈ jobs sched rootComponent ↔
      (∃ m ∈ rootComponent.markdown, job = (m.position, .ok (markdownComponent m)))
      ∨ (∃ e ∈ rootComponent.editor, job = (e.position, .ok (editorComponent e)))
      ∨ (∃ i c, rootComponent.container[i]? = some c
          ∧ job = (c.position, serializeRootComponent (sched.nested i) c)) := by
  unfold jobs
  rw [mem_keysJobs]
  constructor
  · rintro ⟨key, -, h⟩
    cases key
    · left
      simpa [keyJobs, markdownJobs, eq_comm] using h
    · right; left
      simpa [keyJobs, editorJobs, eq_comm] using h
    · right; right
      simpa [keyJobs, mem_containerJobs] using h
  · rintro (h | h | h)
    · exact ⟨.markdown, mem_keys _ _, by simpa [keyJobs, markdownJobs, eq_comm] using h⟩
    · exact ⟨.editor, mem_keys _ _, by simpa [keyJobs, editorJobs, eq_comm] using h⟩
    · exact ⟨.container, mem_keys _ _, by simpa [keyJobs, mem_containerJobs] using h⟩

theorem placed_of_built (js : List Job) (h : ∀ job ∈ js, ∃ c, job.2 = .ok c) :
    (placed js).map (fun w => w.1) = js.map (fun job => job.1) := by
  induction js with
  | nil => rfl
  | cons job rest ih =>
    obtain ⟨position, outcome⟩ := job
    obtain ⟨⟨c, hc⟩, hrest⟩ := List.forall_mem_cons.1 h
    simp only at hc
    subst hc
    simp [placed, ih hrest]

theorem mem_placed (js : List Job) (position : Int) (c : Component) :
    (position, c) ∈ placed js ↔ (position, Outcome.ok c) ∈ js := by
  induction js with
  | nil => simp [placed]
  | cons job rest ih =>
    obtain ⟨p, outcome⟩ := job
    cases outcome <;> simp [placed, ih]

/-! ## One level of the serializer -/

/-- A job the loops get through: position in `1..length`, component built. -/
theorem serializeRootComponent_eq_ok_iff (sched : Schedule) (rootComponent : FlatContainer)
    (c : Component) :
    serializeRootComponent sched rootComponent = .ok c ↔
      (∀ job ∈ jobs sched rootComponent,
          1 ≤ job.1 ∧ job.1 ≤ rootComponent.childCount ∧ ∃ c2, job.2 = .ok c2)
        ∧ finish rootComponent.id rootComponent.orientation rootComponent.childCount
            ((SerializeState.init rootComponent.childCount).placeAll
              (placed (jobs sched rootComponent))) = .ok c := by
  rw [serializeRootComponent_eq, Outcome.bind_eq_ok]
  constructor
  · rintro ⟨st, hrun, hfin⟩
    rw [runJobs_eq_ok_iff _ _ _ _ (by simp [SerializeState.init])
      (by simp [SerializeState.init])] at hrun
    obtain ⟨hall, rfl⟩ := hrun
    exact ⟨hall, hfin⟩
  · rintro ⟨hall, hfin⟩
    refine ⟨_, ?_, hfin⟩
    rw [runJobs_eq_ok_iff _ _ _ _ (by simp [SerializeState.init])
      (by simp [SerializeState.init])]
    exact ⟨hall, rfl⟩

theorem finish_eq_ok_iff (id orientation : String) (length : Nat) (st : SerializeState)
    (c : Component) :
    finish id orientation length st = .ok c ↔
      (∀ i, i < st.positions.length → st.positions[i]? = some true)
        ∧ c = { Component.zero with
                ID := id
                Orientation := orientation
                Type_ := "container"
                Components := st.childComponents
                ComponentsNil := false } := by
  unfold finish
  rw [← firstUnfilled_eq_none st.positions 0]
  cases h : firstUnfilled st.positions 0 with
  | none => simp [eq_comm]
  | some i => simp

theorem init_placeAll_filled (length : Nat) (ws : List (Int × Component)) (i : Nat)
    (hi : i < length) :
    ((SerializeState.init length).placeAll ws).positions[i]? = some true ↔
      ∃ w ∈ ws, slot w.1 = i := by
  rw [placeAll_positions_filled _ _ _ (by simpa [SerializeState.init] using hi)]
  simp [SerializeState.init, hi]

theorem slot_ofNat_succ (i : Nat) : slot ((i : Int) + 1) = i := by
  unfold slot
  omega

theorem slot_injOn {p q : Int} (hp : 1 ≤ p) (hq : 1 ≤ q) (h : slot p = slot q) : p = q := by
  unfold slot at h
  omega

/-- The jobs of a level whose positions are a permutation of `1..N` are in range. -/
theorem jobs_inRange_of_levelWellPositioned (sched : Schedule) (rootComponent : FlatContainer)
    (hperm : rootComponent.levelWellPositioned) (job : Job)
    (hjob : job ∈ jobs sched rootComponent) :
    1 ≤ job.1 ∧ job.1 ≤ rootComponent.childCount := by
  have h1 : job.1 ∈ processedPositions sched rootComponent :=
    List.mem_map_of_mem (fun job => job.1) hjob
  have h2 := (hperm.mem_iff).1 (((processedPositions_perm sched rootComponent).mem_iff).1 h1)
  exact (mem_oneTo _ _).1 h2

/-- One level of the claim on well-positioned containers: with the positions of this level
a permutation of `1..N` and every nested entry serialized, the call returns a container
with every child in the slot of its position. -/
theorem serializeRootComponent_level (sched : Schedule) (rootComponent : FlatContainer)
    (hperm : rootComponent.levelWellPositioned)
    (hnested : ∀ i k, rootComponent.container[i]? = some k →
      ∃ ck, serializeRootComponent (sched.nested i) k = .ok ck) :
    ∃ c, serializeRootComponent sched rootComponent = .ok c
      ∧ c.Type_ = "container" ∧ c.ID = rootComponent.id
      ∧ c.Orientation = rootComponent.orientation
      ∧ c.Components.length = rootComponent.childCount
      ∧ (∀ m ∈ rootComponent.markdown,
          c.Components[(m.position - 1).toNat]? = some (markdownComponent m))
      ∧ (∀ e ∈ rootComponent.editor,
          c.Components[(e.position - 1).toNat]? = some (editorComponent e))
      ∧ (∀ i k, rootComponent.container[i]? = some k →
          ∃ ck, serializeRootComponent (sched.nested i) k = .ok ck
            ∧ c.Components[(k.position - 1).toNat]? = some ck) := by
  have hbuilt : ∀ job ∈ jobs sched rootComponent, ∃ c2, job.2 = .ok c2 := by
    intro job hjob
    rcases (mem_jobs sched rootComponent job).1 hjob with
      ⟨m, -, rfl⟩ | ⟨e, -, rfl⟩ | ⟨i, k, hk, rfl⟩
    · exact ⟨_, rfl⟩
    · exact ⟨_, rfl⟩
    · exact hnested i k hk
  have hgood : ∀ job ∈ jobs sched rootComponent,
      1 ≤ job.1 ∧ job.1 ≤ rootComponent.childCount ∧ ∃ c2, job.2 = .ok c2 := by
    intro job hjob
    obtain ⟨h1, h2⟩ := jobs_inRange_of_levelWellPositioned sched rootComponent hperm job hjob
    exact ⟨h1, h2, hbuilt job hjob⟩
  have hplacedPos : (placed (jobs sched rootComponent)).map (fun w => w.1)
      = processedPositions sched rootComponent := placed_of_built _ hbuilt
  have hpermProc : List.Perm (processedPositions sched rootComponent)
      (oneTo rootComponent.childCount) :=
    (processedPositions_perm sched rootComponent).trans hperm
  have hnodup : ((placed (jobs sched rootComponent)).map (fun w => slot w.1)).Nodup := by
    have hnd : ((placed (jobs sched rootComponent)).map (fun w => w.1)).Nodup := by
      rw [hplacedPos]
      exact (hpermProc.nodup_iff).2 (nodup_oneTo _)
    have hmap : (placed (jobs sched rootComponent)).map (fun w => slot w.1)
        = ((placed (jobs sched rootComponent)).map (fun w => w.1)).map slot := by
      rw [List.map_map]; rfl
    rw [hmap]
    refine List.Nodup.map_on ?_ hnd
    intro p hp q hq hpq
    rw [hplacedPos] at hp hq
    exact slot_injOn ((mem_oneTo _ _).1 ((hpermProc.mem_iff).1 hp)).1
      ((mem_oneTo _ _).1 ((hpermProc.mem_iff).1 hq)).1 hpq
  have hfilled : ∀ i, i < ((SerializeState.init rootComponent.childCount).placeAll
      (placed (jobs sched rootComponent))).positions.length →
      ((SerializeState.init rootComponent.childCount).placeAll
        (placed (jobs sched rootComponent))).positions[i]? = some true := by
    intro i hi
    rw [placeAll_positions_length] at hi
    have hi2 : i < rootComponent.childCount := by simpa [SerializeState.init] using hi
    rw [init_placeAll_filled _ _ _ hi2]
    have hmem : ((i : Int) + 1) ∈ (placed (jobs sched rootComponent)).map (fun w => w.1) := by
      rw [hplacedPos, hpermProc.mem_iff, mem_oneTo]
      omega
    obtain ⟨w, hw, hw1⟩ := List.mem_map.1 hmem
    exact ⟨w, hw, by rw [hw1]; exact slot_ofNat_succ i⟩
  have hslot : ∀ (position : Int) (c2 : Component),
      (position, Outcome.ok c2) ∈ jobs sched rootComponent →
      ((SerializeState.init rootComponent.childCount).placeAll
        (placed (jobs sched rootComponent))).childComponents[(position - 1).toNat]?
        = some c2 := by
    intro position c2 hjob
    have hin := (hgood _ hjob)
    simp only at hin
    have hw : (position, c2) ∈ placed (jobs sched rootComponent) := (mem_placed _ _ _).2 hjob
    have := placeAll_childComponents_of_nodup (SerializeState.init rootComponent.childCount)
      _ hnodup (position, c2) hw (by
        simp only [SerializeState.init, List.length_replicate, slot]
        omega)
    exact this
  refine ⟨_, (serializeRootComponent_eq_ok_iff sched rootComponent _).2
    ⟨hgood, (finish_eq_ok_iff _ _ _ _ _).2 ⟨hfilled, rfl⟩⟩, rfl, rfl, rfl, ?_, ?_, ?_, ?_⟩
  · simp [placeAll_childComponents_length, SerializeState.init]
  · intro m hm
    exact hslot _ _ ((mem_jobs _ _ _).2 (Or.inl ⟨m, hm, rfl⟩))
  · intro e he
    exact hslot _ _ ((mem_jobs _ _ _).2 (Or.inr (Or.inl ⟨e, he, rfl⟩)))
  · intro i k hk
    obtain ⟨ck, hck⟩ := hnested i k hk
    refine ⟨ck, hck, ?_⟩
    apply hslot
    rw [← hck]
    exact (mem_jobs _ _ _).2 (Or.inr (Or.inr ⟨i, k, hk, rfl⟩))

theorem wellPositioned_iff (rootComponent : FlatContainer) :
    wellPositioned rootComponent = true ↔
      rootComponent.levelWellPositioned ∧ wellPositionedAll rootComponent.container = true := by
  cases rootComponent with
  | mk id position orientation markdown editor container =>
    rw [wellPositioned]
    simp

theorem wellPositionedAll_iff (container : List FlatContainer) :
    wellPositionedAll container = true ↔ ∀ k ∈ container, wellPositioned k = true := by
  induction container with
  | nil => simp [wellPositionedAll]
  | cons k rest ih =>
    rw [wellPositionedAll]
    simp [ih]

/-- A container well positioned at every level serializes, under every schedule. -/
theorem serializeRootComponent_isOk_of_wellPositioned (rootComponent : FlatContainer) :
    wellPositioned rootComponent = true →
      ∀ sched : Schedule, ∃ c, serializeRootComponent sched rootComponent = .ok c := by
  refine FlatContainer.rec
    (motive_1 := fun rootComponent => wellPositioned rootComponent = true →
      ∀ sched : Schedule, ∃ c, serializeRootComponent sched rootComponent = .ok c)
    (motive_2 := fun container => ∀ k ∈ container, wellPositioned k = true →
      ∀ sched : Schedule, ∃ c, serializeRootComponent sched k = .ok c)
    ?_ ?_ ?_ rootComponent
  · intro id position orientation markdown editor container ih hwp sched
    obtain ⟨hlevel, hall⟩ := (wellPositioned_iff _).1 hwp
    have hnested : ∀ i k, container[i]? = some k →
        ∃ ck, serializeRootComponent (sched.nested i) k = .ok ck := by
      intro i k hk
      have hmem : k ∈ container := List.mem_iff_getElem?.2 ⟨i, hk⟩
      exact ih k hmem ((wellPositionedAll_iff _).1 hall k hmem) _
    obtain ⟨c, hc, -⟩ := serializeRootComponent_level sched _ hlevel hnested
    exact ⟨c, hc⟩
  · intro k hk
    cases hk
  · intro head tail ihHead ihTail k hk
    rcases List.mem_cons.1 hk with rfl | hmem
    · exact ihHead
    · exact ihTail k hmem

theorem serializeRootComponent_of_good (sched : Schedule) (rootComponent : FlatContainer)
    (hgood : ∀ job ∈ jobs sched rootComponent,
      1 ≤ job.1 ∧ job.1 ≤ rootComponent.childCount ∧ ∃ c2, job.2 = .ok c2) :
    serializeRootComponent sched rootComponent
      = finish rootComponent.id rootComponent.orientation rootComponent.childCount
          ((SerializeState.init rootComponent.childCount).placeAll
            (placed (jobs sched rootComponent))) := by
  rw [serializeRootComponent_eq,
    (runJobs_eq_ok_iff _ _ _ _ (by simp [SerializeState.init])
      (by simp [SerializeState.init])).2 ⟨hgood, rfl⟩]
  rfl

theorem length_childPositions (rootComponent : FlatContainer) :
    rootComponent.childPositions.length = rootComponent.childCount := by
  simp [FlatContainer.childPositions, FlatContainer.childCount, Nat.add_assoc]

/-- The jobs of a level are built when its nested container entries serialize. -/
theorem jobs_built_of_nested (sched : Schedule) (rootComponent : FlatContainer)
    (hnested : ∀ i k, rootComponent.container[i]? = some k →
      ∃ ck, serializeRootComponent (sched.nested i) k = .ok ck)
    (job : Job) (hjob : job ∈ jobs sched rootComponent) : ∃ c2, job.2 = .ok c2 := by
  rcases (mem_jobs sched rootComponent job).1 hjob with
    ⟨m, -, rfl⟩ | ⟨e, -, rfl⟩ | ⟨i, k, hk, rfl⟩
  · exact ⟨_, rfl⟩
  · exact ⟨_, rfl⟩
  · exact hnested i k hk

theorem mem_childPositions_of_job (sched : Schedule) (rootComponent : FlatContainer)
    (job : Job) (hjob : job ∈ jobs sched rootComponent) :
    job.1 ∈ rootComponent.childPositions :=
  ((processedPositions_perm sched rootComponent).mem_iff).1
    (List.mem_map_of_mem (fun job => job.1) hjob)

/-- A declared position has a placed child when all jobs are built. -/
theorem exists_placed_of_mem_childPositions (sched : Schedule) (rootComponent : FlatContainer)
    (hbuilt : ∀ job ∈ jobs sched rootComponent, ∃ c2, job.2 = .ok c2)
    (p : Int) (hp : p ∈ rootComponent.childPositions) :
    ∃ w ∈ placed (jobs sched rootComponent), w.1 = p := by
  have h1 : p ∈ (placed (jobs sched rootComponent)).map (fun w => w.1) := by
    rw [placed_of_built _ hbuilt]
    exact ((processedPositions_perm sched rootComponent).mem_iff).2 hp
  obtain ⟨w, hw, hw1⟩ := List.mem_map.1 h1
  exact ⟨w, hw, hw1⟩

theorem mem_childPositions_of_placed (sched : Schedule) (rootComponent : FlatContainer)
    (w : Int × Component) (hw : w ∈ placed (jobs sched rootComponent)) :
    w.1 ∈ rootComponent.childPositions := by
  obtain ⟨p, c⟩ := w
  exact mem_childPositions_of_job sched rootComponent _ ((mem_placed _ _ _).1 hw)

/-- Pigeonhole: `N` positions in `1..N` that cover `1..N` are pairwise distinct. -/
theorem nodup_of_cover (ps : List Int) (n : Nat) (hlen : ps.length = n)
    (hcover : ∀ p ∈ oneTo n, p ∈ ps) : ps.Nodup ∧ List.Perm ps (oneTo n) := by
  have hsub : List.Subperm (oneTo n) ps := List.subperm_of_subset (nodup_oneTo n) hcover
  have hperm : List.Perm (oneTo n) ps :=
    hsub.perm_of_length_le (by rw [hlen, length_oneTo])
  exact ⟨(hperm.nodup_iff).1 (nodup_oneTo n), hperm.symm⟩

/-! ## The deserializer's loop -/

theorem deserializeRootComponent_eq (rootComponent : Component) (position : Int) :
    deserializeRootComponent rootComponent position =
      [{ id := rootComponent.ID
         orientation := rootComponent.Orientation
         position := position
         markdown := (deserializeChildren rootComponent.Components 0 ⟨[], [], []⟩).markdown
         editor := (deserializeChildren rootComponent.Components 0 ⟨[], [], []⟩).editor
         container := (deserializeChildren rootComponent.Components 0 ⟨[], [], []⟩).container }] := by
  cases rootComponent
  rw [deserializeRootComponent]

theorem deserializeChildren_markdown (children : List Component) (key : Nat)
    (st : DeserializeState) :
    (deserializeChildren children key st).markdown =
      st.markdown ++ ((children.enumFrom key).filter
        (fun ic => decide (ic.2.Type_ = "markdown"))).map
        (fun ic => markdownEntry ic.2 ic.1) := by
  induction children generalizing key st with
  | nil => simp [deserializeChildren]
  | cons child rest ih =>
    rw [deserializeChildren]
    by_cases h1 : child.Type_ = "markdown"
    · simp [h1, ih, List.enumFrom_cons, List.filter_cons]
    · by_cases h2 : child.Type_ = "editor"
      · simp [h1, h2, ih, List.enumFrom_cons, List.filter_cons]
      · by_cases h3 : child.Type_ = "container"
        · simp [h1, h2, h3, ih, List.enumFrom_cons, List.filter_cons]
        · simp [h1, h2, h3, ih, List.enumFrom_cons, List.filter_cons]

theorem deserializeChildren_editor (children : List Component) (key : Nat)
    (st : DeserializeState) :
    (deserializeChildren children key st).editor =
      st.editor ++ ((children.enumFrom key).filter
        (fun ic => decide (ic.2.Type_ = "editor"))).map
        (fun ic => editorEntry ic.2 ic.1) := by
  induction children generalizing key st with
  | nil => simp [deserializeChildren]
  | cons child rest ih =>
    rw [deserializeChildren]
    by_cases h1 : child.Type_ = "markdown"
    · have h2 : child.Type_ ≠ "editor" := by rw [h1]; decide
      simp [h1, h2, ih, List.enumFrom_cons, List.filter_cons]
    · by_cases h2 : child.Type_ = "editor"
      · simp [h1, h2, ih, List.enumFrom_cons, List.filter_cons]
      · by_cases h3 : child.Type_ = "container"
        · simp [h1, h2, h3, ih, List.enumFrom_cons, List.filter_cons]
        · simp [h1, h2, h3, ih, List.enumFrom_cons, List.filter_cons]

/-- The indices kept by a filter of an enumeration are strictly increasing. -/
theorem pairwise_filter_enumFrom {α : Type} (xs : List α) (key : Nat)
    (keep : Nat × α → Bool) :
    (((xs.enumFrom key).filter keep).map (fun ic => (ic.1 : Int) + 1)).Pairwise (· < ·) := by
  have h1 : ((xs.enumFrom key).map (fun ic => ic.1)).Pairwise (· < ·) := by
    rw [show (fun ic : Nat × α => ic.1) = Prod.fst from rfl, List.enumFrom_map_fst]
    exact List.pairwise_lt_range' key xs.length
  have h2 : (((xs.enumFrom key).filter keep).map (fun ic => ic.1)).Pairwise (· < ·) :=
    h1.sublist ((List.filter_sublist _).map _)
  have h3 : ((xs.enumFrom key).filter keep).map (fun ic => (ic.1 : Int) + 1)
      = (((xs.enumFrom key).filter keep).map (fun ic => ic.1)).map
          (fun i : Nat => (i : Int) + 1) := by
    rw [List.map_map]; rfl
  rw [h3]
  exact h2.map _ (fun a b hab => by omega)

theorem deserializeRootComponent_length (rootComponent : Component) (position : Int) :
    (deserializeRootComponent rootComponent position).length = 1 := by
  rw [deserializeRootComponent_eq]
  rfl

theorem deserializeChildren_container_none (children : List Component) (key : Nat)
    (st : DeserializeState) (h : ∀ c ∈ children, c.Type_ ≠ "container") :
    (deserializeChildren children key st).container = st.container := by
  induction children generalizing key st with
  | nil => simp [deserializeChildren]
  | cons child rest ih =>
    obtain ⟨h3, hrest⟩ := List.forall_mem_cons.1 h
    rw [deserializeChildren]
    by_cases h1 : child.Type_ = "markdown"
    · simp [h1, ih _ _ hrest]
    · by_cases h2 : child.Type_ = "editor"
      · simp [h1, h2, ih _ _ hrest]
      · simp [h1, h2, h3, ih _ _ hrest]

theorem deserializeChildren_container_last (children : List Component) (key : Nat)
    (st : DeserializeState) (k : Nat) (c : Component) (hk : children[k]? = some c)
    (hc : c.Type_ = "container")
    (hlast : ∀ j c2, k < j → children[j]? = some c2 → c2.Type_ ≠ "container") :
    (deserializeChildren children key st).container
      = deserializeRootComponent c (((key + k : Nat) : Int) + 1) := by
  induction children generalizing key st k with
  | nil => simp at hk
  | cons child rest ih =>
    rw [deserializeChildren]
    cases k with
    | zero =>
      simp only [List.getElem?_cons_zero, Option.some.injEq] at hk
      subst hk
      have h1 : child.Type_ ≠ "markdown" := by rw [hc]; decide
      have h2 : child.Type_ ≠ "editor" := by rw [hc]; decide
      have hrest : ∀ c2 ∈ rest, c2.Type_ ≠ "container" := by
        intro c2 hc2
        obtain ⟨j, hj⟩ := List.mem_iff_getElem?.1 hc2
        exact hlast (j + 1) c2 (by omega) (by simpa using hj)
      simp only [if_neg h1, if_neg h2, if_pos hc]
      rw [deserializeChildren_container_none _ _ _ hrest]
      simp
    | succ k2 =>
      have hk2 : rest[k2]? = some c := by simpa using hk
      have hlast2 : ∀ j c2, k2 < j → rest[j]? = some c2 → c2.Type_ ≠ "container" := by
        intro j c2 hj hjc
        exact hlast (j + 1) c2 (by omega) (by simpa using hjc)
      have hidx : key + 1 + k2 = key + (k2 + 1) := by omega
      split
      · rw [ih _ _ k2 hk2 hlast2, hidx]
      · split
        · rw [ih _ _ k2 hk2 hlast2, hidx]
        · split
          · rw [ih _ _ k2 hk2 hlast2, hidx]
          · rw [ih _ _ k2 hk2 hlast2, hidx]

theorem deserializeChildren_container_length (children : List Component) (key : Nat)
    (st : DeserializeState) (h : st.container.length ≤ 1) :
    (deserializeChildren children key st).container.length ≤ 1 := by
  induction children generalizing key st with
  | nil => simpa [deserializeChildren] using h
  | cons child rest ih =>
    rw [deserializeChildren]
    split
    · exact ih _ _ h
    · split
      · exact ih _ _ h
      · split
        · exact ih _ _ (by simp [deserializeRootComponent_length])
        · exact ih _ _ h

/-! ## Success of the serializer and the editor payload -/

theorem nested_ok_of_ok (sched : Schedule) (rootComponent : FlatContainer) (c : Component)
    (h : serializeRootComponent sched rootComponent = .ok c) (i : Nat) (k : FlatContainer)
    (hk : rootComponent.container[i]? = some k) :
    ∃ ck, serializeRootComponent (sched.nested i) k = .ok ck := by
  obtain ⟨hgood, -⟩ := (serializeRootComponent_eq_ok_iff sched rootComponent c).1 h
  exact (hgood _ ((mem_jobs _ _ _).2 (Or.inr (Or.inr ⟨i, k, hk, rfl⟩)))).2.2

/-- A level the serializer accepts declares a permutation of `1..N`. -/
theorem levelWellPositioned_of_ok (sched : Schedule) (rootComponent : FlatContainer)
    (c : Component) (h : serializeRootComponent sched rootComponent = .ok c) :
    rootComponent.levelWellPositioned := by
  obtain ⟨hgood, hfin⟩ := (serializeRootComponent_eq_ok_iff sched rootComponent c).1 h
  obtain ⟨hfilled, -⟩ := (finish_eq_ok_iff _ _ _ _ _).1 hfin
  have hlen : (processedPositions sched rootComponent).length = rootComponent.childCount := by
    rw [(processedPositions_perm sched rootComponent).length_eq, length_childPositions]
  have hcover : ∀ p ∈ oneTo rootComponent.childCount,
      p ∈ processedPositions sched rootComponent := by
    intro p hp
    obtain ⟨hp1, hp2⟩ := (mem_oneTo _ _).1 hp
    have hslot : slot p < rootComponent.childCount := by unfold slot; omega
    have hfill := hfilled (slot p) (by
      simpa [placeAll_positions_length, SerializeState.init] using hslot)
    rw [init_placeAll_filled _ _ _ hslot] at hfill
    obtain ⟨⟨q, cq⟩, hw, hws⟩ := hfill
    have hjob := (mem_placed _ _ _).1 hw
    have hq1 := (hgood _ hjob).1
    have hqp : q = p := slot_injOn hq1 hp1 hws
    subst hqp
    exact List.mem_map_of_mem (fun job => job.1) hjob
  exact (processedPositions_perm sched rootComponent).symm.trans
    (nodup_of_cover _ _ hlen hcover).2

theorem map_eq_self {α : Type} (f : α → α) (h : ∀ x, f x = x) (xs : List α) :
    xs.map f = xs := by
  induction xs with
  | nil => rfl
  | cons x rest ih => simp [h, ih]

theorem foldl_append_singleton {α β : Type} (f : α → β) (xs : List α) (init : List β) :
    xs.foldl (fun acc x => acc ++ [f x]) init = init ++ xs.map f := by
  induction xs generalizing init with
  | nil => simp
  | cons x rest ih => simp [ih]

theorem serializeLanguages_eq (language_settings : List FlatLanguage) :
    serializeLanguages language_settings
      = language_settings.map (fun l =>
          ({ DefaultCode := l.default_code, Language := l.language, Version := l.version }
            : Language)) := by
  unfold serializeLanguages
  rw [foldl_append_singleton (fun l : FlatLanguage =>
    ({ DefaultCode := l.default_code, Language := l.language, Version := l.version }
      : Language))]
  simp

theorem serializeValidators_eq (validator : List FlatValidator) :
    serializeValidators validator
      = validator.map (fun v =>
          ({ ID := v.id, IsHidden := v.is_hidden, Input := { Stdin := v.inputs },
             Output := { Stdout := v.outputs } } : Validator)) := by
  unfold serializeValidators
  rw [foldl_append_singleton (fun v : FlatValidator =>
    ({ ID := v.id, IsHidden := v.is_hidden, Input := { Stdin := v.inputs },
       Output := { Stdout := v.outputs } } : Validator))]
  simp

theorem serializeHints_eq (hint : List String) :
    serializeHints hint = hint.map (fun item => ({ ID := item } : ItemIdentifier)) := by
  unfold serializeHints
  rw [foldl_append_singleton (fun item : String => ({ ID := item } : ItemIdentifier))]
  simp

theorem deserializeLanguages_serializeLanguages (language_settings : List FlatLanguage) :
    deserializeLanguages (serializeLanguages language_settings) = language_settings := by
  rw [serializeLanguages_eq]
  unfold deserializeLanguages
  rw [foldl_append_singleton (fun language : Language =>
    ({ default_code := language.DefaultCode, language := language.Language,
       version := language.Version } : FlatLanguage))]
  rw [List.nil_append, List.map_map]
  exact map_eq_self _ (fun _ => rfl) _

theorem deserializeValidators_serializeValidators (validator : List FlatValidator) :
    deserializeValidators (serializeValidators validator) = validator := by
  rw [serializeValidators_eq]
  unfold deserializeValidators
  rw [foldl_append_singleton (fun v : Validator =>
    ({ id := v.ID, is_hidden := v.IsHidden, inputs := v.Input.Stdin,
       outputs := v.Output.Stdout } : FlatValidator))]
  rw [List.nil_append, List.map_map]
  exact map_eq_self _ (fun _ => rfl) _

theorem deserializeHints_serializeHints (hint : List String) :
    deserializeHints (serializeHints hint) = hint := by
  rw [serializeHints_eq]
  unfold deserializeHints
  rw [foldl_append_singleton (fun item : ItemIdentifier => item.ID)]
  rw [List.nil_append, List.map_map]
  exact map_eq_self _ (fun _ => rfl) _

theorem editorEntry_editorComponent (editor : FlatEditor) (key : Nat)
    (h : (key : Int) + 1 = editor.position) :
    editorEntry (editorComponent editor) key = editor := by
  cases editor with
  | mk id position language_settings hint validator =>
    simp only at h
    simp only [editorEntry, editorComponent, deserializeLanguages_serializeLanguages,
      deserializeValidators_serializeValidators, deserializeHints_serializeHints, h]

/-! ## Nested failures and the generated schema -/

theorem isOk_eq_true_iff {α : Type} (x : Outcome α) : x.isOk = true ↔ ∃ a, x = .ok a := by
  cases x <;> simp [Outcome.isOk]

theorem resourceContentContainer_of_le (i : Int) (h : i ≤ 3) :
    resourceContentContainer i =
      .mk [("id", .mk .TypeString false false true .none),
           ("position", .mk .TypeInt true false false .none),
           ("orientation", .mk .TypeString true false false .none),
           ("markdown", .mk .TypeList false true false (.resource resourceContentDataMarkdown)),
           ("editor", .mk .TypeList false true false (.resource resourceContentDataEditor)),
           ("container", .mk .TypeList false true false
              (.resource (resourceContentContainer (i + 1))))] := by
  rw [resourceContentContainer, if_neg (by omega)]

theorem resourceContentContainer_of_gt (i : Int) (h : 3 < i) :
    resourceContentContainer i = .mk [] := by
  rw [resourceContentContainer, if_pos (by omega)]

theorem containerElem_of_le (i : Int) (h : i ≤ 3) :
    (resourceContentContainer i).containerElem = some (resourceContentContainer (i + 1)) := by
  rw [resourceContentContainer_of_le i h]
  rfl

theorem descriptorAt_one : descriptorAt 1 = some (resourceContentContainer 2) := by
  show (some (resourceContentContainer 1)).bind Resource.containerElem = _
  exact containerElem_of_le 1 (by decide)

theorem descriptorAt_two : descriptorAt 2 = some (resourceContentContainer 3) := by
  show (descriptorAt 1).bind Resource.containerElem = _
  rw [descriptorAt_one]
  exact containerElem_of_le 2 (by decide)

theorem descriptorAt_three : descriptorAt 3 = some (Resource.mk []) := by
  show (descriptorAt 2).bind Resource.containerElem = _
  rw [descriptorAt_two]
  show (resourceContentContainer 3).containerElem = _
  rw [containerElem_of_le 3 (by decide)]
  exact congrArg some (resourceContentContainer_of_gt 4 (by decide))

theorem descriptorAt_four : descriptorAt 4 = none := by
  show (descriptorAt 3).bind Resource.containerElem = _
  rw [descriptorAt_three]
  rfl

theorem hasOptionalList_of_le (i : Int) (h : i ≤ 3) :
    (resourceContentContainer i).hasOptionalList "markdown" = true
      ∧ (resourceContentContainer i).hasOptionalList "editor" = true
      ∧ (resourceContentContainer i).hasOptionalList "container" = true := by
  rw [resourceContentContainer_of_le i h]
  exact ⟨rfl, rfl, rfl⟩

theorem keys_of_le (i : Int) (h : i ≤ 3) :
    (resourceContentContainer i).keys
      = ["id", "position", "orientation", "markdown", "editor", "container"] := by
  rw [resourceContentContainer_of_le i h]
  rfl

theorem nestedAt_succ_of_le (i : Int) (h : i ≤ 3) (depth : Nat) :
    (resourceContentContainer i).nestedAt (depth + 1)
      = (resourceContentContainer (i + 1)).nestedAt depth := by
  rw [Resource.nestedAt, containerElem_of_le i h]

theorem nestedAt_succ_of_gt (i : Int) (h : 3 < i) (depth : Nat) :
    (resourceContentContainer i).nestedAt (depth + 1) = none := by
  rw [resourceContentContainer_of_gt i h]
  rfl

theorem nestedAt_isSome_iff (n : Nat) (i : Int) (hn : (4 - i).toNat = n) (depth : Nat) :
    ((resourceContentContainer i).nestedAt depth).isSome = true ↔ depth ≤ n := by
  induction n generalizing i depth with
  | zero =>
    cases depth with
    | zero => simp [Resource.nestedAt]
    | succ d => simp [nestedAt_succ_of_gt i (by omega)]
  | succ m ih =>
    cases depth with
    | zero => simp [Resource.nestedAt]
    | succ d =>
      rw [nestedAt_succ_of_le i (by omega), ih (i + 1) (by omega)]
      omega

theorem resourceContentContainerFuel_eq (n : Nat) (i : Int) (hn : (4 - i).toNat = n)
    (fuel : Nat) (hfuel : n < fuel) :
    resourceContentContainerFuel fuel i = some (resourceContentContainer i) := by
  induction n generalizing i fuel with
  | zero =>
    cases fuel with
    | zero => omega
    | succ f =>
      rw [resourceContentContainerFuel, if_pos (by omega),
        resourceContentContainer_of_gt i (by omega)]
  | succ m ih =>
    cases fuel with
    | zero => omega
    | succ f =>
      rw [resourceContentContainerFuel, if_neg (by omega), ih (i + 1) (by omega) f (by omega),
        resourceContentContainer_of_le i (by omega)]

/-! ## The component a level returns -/

/-- A returned component is a container that carries the id and orientation of the entry
and nothing but children. -/
theorem serializeRootComponent_ok_shape (sched : Schedule) (rootComponent : FlatContainer)
    (c : Component) (h : serializeRootComponent sched rootComponent = .ok c) :
    c = { Component.zero with
          ID := rootComponent.id
          Orientation := rootComponent.orientation
          Type_ := "container"
          Components := c.Components
          ComponentsNil := false } := by
  obtain ⟨-, hfin⟩ := (serializeRootComponent_eq_ok_iff sched rootComponent c).1 h
  obtain ⟨-, hc⟩ := (finish_eq_ok_iff _ _ _ _ _).1 hfin
  rw [hc]

/-- A declared position of a level belongs to an entry of one of the three lists. -/
theorem mem_childPositions_iff (rootComponent : FlatContainer) (p : Int) :
    p ∈ rootComponent.childPositions ↔
      (∃ m ∈ rootComponent.markdown, m.position = p)
      ∨ (∃ e ∈ rootComponent.editor, e.position = p)
      ∨ (∃ (i : Nat) (k : FlatContainer),
          rootComponent.container[i]? = some k ∧ k.position = p) := by
  unfold FlatContainer.childPositions
  simp only [List.mem_append, List.mem_map, or_assoc]
  constructor
  · rintro (h | h | ⟨k, hk, hp⟩)
    · exact Or.inl h
    · exact Or.inr (Or.inl h)
    · obtain ⟨i, hi⟩ := List.mem_iff_getElem?.1 hk
      exact Or.inr (Or.inr ⟨i, k, hi, hp⟩)
  · rintro (h | h | ⟨i, k, hk, hp⟩)
    · exact Or.inl h
    · exact Or.inr (Or.inl h)
    · exact Or.inr (Or.inr ⟨k, List.mem_iff_getElem?.2 ⟨i, hk⟩, hp⟩)

/-- The children of a well-positioned level are determined by its entries: a list of `N`
components that has, at the slot of every entry, the component built from it, is the list
the serializer returns. -/
theorem serializeRootComponent_eq_ok_of_components (sched : Schedule)
    (rootComponent : FlatContainer) (cs : List Component)
    (hperm : rootComponent.levelWellPositioned)
    (hlen : cs.length = rootComponent.childCount)
    (hmd : ∀ m ∈ rootComponent.markdown,
      cs[(m.position - 1).toNat]? = some (markdownComponent m))
    (hed : ∀ e ∈ rootComponent.editor,
      cs[(e.position - 1).toNat]? = some (editorComponent e))
    (hct : ∀ i k, rootComponent.container[i]? = some k →
      ∃ ck, serializeRootComponent (sched.nested i) k = .ok ck
        ∧ cs[(k.position - 1).toNat]? = some ck) :
    serializeRootComponent sched rootComponent =
      .ok { Component.zero with
            ID := rootComponent.id
            Orientation := rootComponent.orientation
            Type_ := "container"
            Components := cs
            ComponentsNil := false } := by
  obtain ⟨c, hc, -, -, -, hclen, hcmd, hced, hcct⟩ :=
    serializeRootComponent_level sched rootComponent hperm
      (fun i k hk => (hct i k hk).imp fun _ h => h.1)
  have hcs : c.Components = cs := by
    apply List.ext_getElem?
    intro i
    by_cases hi : i < rootComponent.childCount
    · have hmem : ((i : Int) + 1) ∈ rootComponent.childPositions := by
        rw [hperm.mem_iff, mem_oneTo]
        omega
      have hidx : (((i : Int) + 1) - 1).toNat = i := by omega
      rcases (mem_childPositions_iff _ _).1 hmem with
        ⟨m, hm, hp⟩ | ⟨e, he, hp⟩ | ⟨j, k, hk, hp⟩
      · have h1 := hcmd m hm
        have h2 := hmd m hm
        rw [hp, hidx] at h1 h2
        rw [h1, h2]
      · have h1 := hced e he
        have h2 := hed e he
        rw [hp, hidx] at h1 h2
        rw [h1, h2]
      · obtain ⟨ck, hck, h1⟩ := hcct j k hk
        obtain ⟨ck2, hck2, h2⟩ := hct j k hk
        rw [hck] at hck2
        cases hck2
        rw [hp, hidx] at h1 h2
        rw [h1, h2]
    · rw [List.getElem?_eq_none (by omega), List.getElem?_eq_none (by omega)]
  rw [hc, serializeRootComponent_ok_shape sched rootComponent c hc, hcs]

/-- The result of the serializer does not depend on the schedule. -/
theorem serializeRootComponent_schedule_independent (rootComponent : FlatContainer) :
    ∀ (s1 s2 : Schedule) (c : Component),
      serializeRootComponent s1 rootComponent = .ok c →
      serializeRootComponent s2 rootComponent = .ok c := by
  refine FlatContainer.rec
    (motive_1 := fun rootComponent => ∀ (s1 s2 : Schedule) (c : Component),
      serializeRootComponent s1 rootComponent = .ok c →
      serializeRootComponent s2 rootComponent = .ok c)
    (motive_2 := fun container => ∀ k ∈ container, ∀ (s1 s2 : Schedule) (c : Component),
      serializeRootComponent s1 k = .ok c → serializeRootComponent s2 k = .ok c)
    ?_ ?_ ?_ rootComponent
  · intro id position orientation markdown editor container ih s1 s2 c hc
    have hperm := levelWellPositioned_of_ok s1 _ c hc
    obtain ⟨c2, hc2, -, -, -, hlen, hmd, hed, hct⟩ :=
      serializeRootComponent_level s1 _ hperm (nested_ok_of_ok s1 _ c hc)
    rw [hc] at hc2
    cases hc2
    have h2 := serializeRootComponent_eq_ok_of_components s2
      ⟨id, position, orientation, markdown, editor, container⟩ c.Components hperm hlen hmd hed
      (by
        intro i k hk
        obtain ⟨ck, hck, hslot⟩ := hct i k hk
        exact ⟨ck, ih k (List.mem_iff_getElem?.2 ⟨i, hk⟩) _ _ ck hck, hslot⟩)
    rw [h2]
    exact congrArg Outcome.ok (serializeRootComponent_ok_shape s1 _ c hc).symm
  · intro k hk
    cases hk
  · intro head tail ihHead ihTail k hk
    rcases List.mem_cons.1 hk with rfl | hmem
    · exact ihHead
    · exact ihTail k hmem

/-! ## Runs with every position in range -/

/-- With every position in `1..length`, a run that does not return a state ends as the
first job that built no component ended. -/
theorem runJobs_inRange (length : Nat) (js : List Job) (st : SerializeState)
    (hc : st.childComponents.length = length) (hp : st.positions.length = length)
    (hjs : ∀ job ∈ js, 1 ≤ job.1 ∧ job.1 ≤ length) :
    (∃ st2, runJobs length js st = .ok st2)
      ∨ (∃ job ∈ js, job.2 = .panic ∧ runJobs length js st = .panic)
      ∨ (∃ job ∈ js, ∃ e, job.2 = .error e ∧ runJobs length js st = .error e) := by
  induction js generalizing st with
  | nil => exact Or.inl ⟨st, rfl⟩
  | cons job rest ih =>
    obtain ⟨position, outcome⟩ := job
    obtain ⟨⟨h1, h2⟩, hrest⟩ := List.forall_mem_cons.1 hjs
    simp only at h1 h2
    simp only [runJobs]
    rw [if_neg (by omega), storeAt_inRange _ _ _ h1 (by omega), Outcome.bind_ok]
    cases outcome with
    | ok c =>
      rw [Outcome.bind_ok, storeAt_inRange _ _ _ h1 (by omega), Outcome.bind_ok]
      rcases ih ⟨st.childComponents.set (slot position) c, st.positions.set (slot position) true⟩
        (by simp [hc]) (by simp [hp]) hrest with
        h | ⟨job, hjob, hj⟩ | ⟨job, hjob, hj⟩
      · exact Or.inl h
      · exact Or.inr (Or.inl ⟨job, List.mem_cons_of_mem _ hjob, hj⟩)
      · exact Or.inr (Or.inr ⟨job, List.mem_cons_of_mem _ hjob, hj⟩)
    | error e =>
      exact Or.inr (Or.inr ⟨(position, .error e), List.mem_cons_self _ _, e, rfl, rfl⟩)
    | panic =>
      exact Or.inr (Or.inl ⟨(position, .panic), List.mem_cons_self _ _, rfl, rfl⟩)

theorem finish_ne_panic (id orientation : String) (length : Nat) (st : SerializeState) :
    finish id orientation length st ≠ .panic := by
  unfold finish
  split <;> simp

theorem finish_ne_positionTooLarge (id orientation : String) (length : Nat)
    (st : SerializeState) (q : Int) (n : Nat) :
    finish id orientation length st ≠ .error (.positionTooLarge q n) := by
  unfold finish
  split <;> simp

/-- A job that built no component is a nested container entry. -/
theorem nested_of_job_not_built (sched : Schedule) (rootComponent : FlatContainer)
    (job : Job) (hjob : job ∈ jobs sched rootComponent) (h : ∀ c, job.2 ≠ .ok c) :
    ∃ (i : Nat) (k : FlatContainer), rootComponent.container[i]? = some k
      ∧ job.2 = serializeRootComponent (sched.nested i) k := by
  rcases (mem_jobs sched rootComponent job).1 hjob with
    ⟨m, -, rfl⟩ | ⟨e, -, rfl⟩ | ⟨i, k, hk, rfl⟩
  · exact absurd rfl (h _)
  · exact absurd rfl (h _)
  · exact ⟨i, k, hk, rfl⟩

/-! ## The lists the deserializer returns -/

theorem mem_filter_enum_map {α β : Type} (cs : List α) (P : α → Prop) [DecidablePred P]
    (f : α → Nat → β) (x : β) :
    x ∈ ((cs.enumFrom 0).filter (fun ic => decide (P ic.2))).map (fun ic => f ic.2 ic.1) ↔
      ∃ (i : Nat) (child : α), cs[i]? = some child ∧ P child ∧ x = f child i := by
  simp only [List.mem_map, List.mem_filter, decide_eq_true_eq]
  constructor
  · rintro ⟨⟨i, child⟩, ⟨hmem, hP⟩, rfl⟩
    rw [List.mk_mem_enumFrom_iff_le_and_getElem?_sub] at hmem
    exact ⟨i, child, by simpa using hmem.2, hP, rfl⟩
  · rintro ⟨i, child, hi, hP, rfl⟩
    refine ⟨(i, child), ⟨?_, hP⟩, rfl⟩
    rw [List.mk_mem_enumFrom_iff_le_and_getElem?_sub]
    exact ⟨Nat.zero_le _, by simpa using hi⟩

theorem markdownEntry_markdownComponent (markdown : FlatMarkdown) (key : Nat)
    (h : (key : Int) + 1 = markdown.position) :
    markdownEntry (markdownComponent markdown) key = markdown := by
  cases markdown with
  | mk id position content =>
    simp only at h
    simp only [markdownEntry, markdownComponent, h]

/-- The markdown list of the deserialized entry. -/
theorem deserialized_markdown (rootComponent : Component) :
    (deserializeChildren rootComponent.Components 0 ⟨[], [], []⟩).markdown =
      ((rootComponent.Components.enumFrom 0).filter
        (fun ic => decide (ic.2.Type_ = "markdown"))).map
        (fun ic => markdownEntry ic.2 ic.1) := by
  rw [deserializeChildren_markdown, List.nil_append]

/-- The editor list of the deserialized entry. -/
theorem deserialized_editor (rootComponent : Component) :
    (deserializeChildren rootComponent.Components 0 ⟨[], [], []⟩).editor =
      ((rootComponent.Components.enumFrom 0).filter
        (fun ic => decide (ic.2.Type_ = "editor"))).map
        (fun ic => editorEntry ic.2 ic.1) := by
  rw [deserializeChildren_editor, List.nil_append]

theorem nodup_of_pairwise_lt_position {α : Type} (xs : List α) (position : α → Int)
    (h : (xs.map position).Pairwise (· < ·)) : xs.Nodup := by
  have h2 : (xs.map position).Nodup := h.imp (fun hab => ne_of_lt hab)
  exact List.Nodup.of_map position h2

/-- What stands at a slot of the children of a returned component: the component of the
entry that declares the slot's position. -/
theorem child_of_ok (sched : Schedule) (rootComponent : FlatContainer) (c : Component)
    (h : serializeRootComponent sched rootComponent = .ok c) (i : Nat) (child : Component)
    (hi : c.Components[i]? = some child) :
    (∃ m ∈ rootComponent.markdown, m.position = (i : Int) + 1 ∧ child = markdownComponent m)
      ∨ (∃ e ∈ rootComponent.editor, e.position = (i : Int) + 1 ∧ child = editorComponent e)
      ∨ (∃ (j : Nat) (k : FlatContainer), rootComponent.container[j]? = some k
          ∧ k.position = (i : Int) + 1
          ∧ serializeRootComponent (sched.nested j) k = .ok child) := by
  have hperm := levelWellPositioned_of_ok sched rootComponent c h
  obtain ⟨c2, hc2, -, -, -, hlen, hmd, hed, hct⟩ :=
    serializeRootComponent_level sched rootComponent hperm
      (nested_ok_of_ok sched rootComponent c h)
  rw [h] at hc2
  cases hc2
  have hlt : i < rootComponent.childCount := by
    rw [← hlen]
    exact (List.getElem?_eq_some.1 hi).1
  have hmem : ((i : Int) + 1) ∈ rootComponent.childPositions := by
    rw [hperm.mem_iff, mem_oneTo]
    omega
  have hidx : (((i : Int) + 1) - 1).toNat = i := by omega
  rcases (mem_childPositions_iff _ _).1 hmem with
    ⟨m, hm, hp⟩ | ⟨e, he, hp⟩ | ⟨j, k, hk, hp⟩
  · left
    have h1 := hmd m hm
    rw [hp, hidx, hi] at h1
    exact ⟨m, hm, hp, Option.some.inj h1⟩
  · right; left
    have h1 := hed e he
    rw [hp, hidx, hi] at h1
    exact ⟨e, he, hp, Option.some.inj h1⟩
  · right; right
    obtain ⟨ck, hck, h1⟩ := hct j k hk
    rw [hp, hidx, hi] at h1
    cases h1
    exact ⟨j, k, hk, hp, hck⟩

theorem type_of_ok (sched : Schedule) (rootComponent : FlatContainer) (c : Component)
    (h : serializeRootComponent sched rootComponent = .ok c) : c.Type_ = "container" := by
  rw [serializeRootComponent_ok_shape sched rootComponent c h]

/-- The declared positions of an accepted level are pairwise distinct and at least 1. -/
theorem nodup_childPositions_of_ok (sched : Schedule) (rootComponent : FlatContainer)
    (c : Component) (h : serializeRootComponent sched rootComponent = .ok c) :
    rootComponent.childPositions.Nodup
      ∧ ∀ p ∈ rootComponent.childPositions, 1 ≤ p := by
  have hperm := levelWellPositioned_of_ok sched rootComponent c h
  exact ⟨(hperm.nodup_iff).2 (nodup_oneTo _),
    fun p hp => ((mem_oneTo _ _).1 ((hperm.mem_iff).1 hp)).1⟩

/-! ## The restricted round trip -/

theorem restrictedChildren_iff (children : List Component) :
    restrictedChildren children = true ↔
      ∀ child ∈ children,
        isMarkdownLeaf child = true ∨ isEditorLeaf child = true
          ∨ restrictedTree child = true := by
  induction children with
  | nil => simp [restrictedChildren]
  | cons child rest ih =>
    rw [restrictedChildren]
    simp [ih, or_assoc]

theorem restrictedTree_iff (T : Component) :
    restrictedTree T = true ↔
      T.Type_ = "container" ∧ T.Markdown = "" ∧ T.EditorSettings.Languages = []
        ∧ T.Validators = [] ∧ T.Items = []
        ∧ T.Components.countP isContainerType ≤ 1
        ∧ restrictedChildren T.Components = true := by
  cases T with
  | mk ID Type_ Orientation Markdown EditorSettings Validators Items Components vNil iNil cNil =>
    rw [restrictedTree]
    simp only [Bool.and_eq_true, decide_eq_true_eq, List.isEmpty_iff, and_assoc]

theorem reallocateAll_eq_map (cs : List Component) :
    reallocateAll cs = cs.map reallocate := by
  induction cs with
  | nil => rfl
  | cons c rest ih =>
    rw [reallocateAll, ih]
    rfl

theorem markdownComponent_markdownEntry (child : Component) (key : Nat)
    (h : isMarkdownLeaf child = true) :
    markdownComponent (markdownEntry child key) = reallocate child := by
  cases child with
  | mk ID Type_ Orientation Markdown EditorSettings Validators Items Components vNil iNil cNil =>
    cases EditorSettings with
    | mk Languages lNil =>
      simp only [isMarkdownLeaf, Bool.and_eq_true, decide_eq_true_eq, List.isEmpty_iff] at h
      obtain ⟨⟨⟨⟨⟨h1, h2⟩, h3⟩, h4⟩, h5⟩, h6⟩ := h
      subst h1 h2 h3 h4 h5 h6
      rw [reallocate, if_neg (by decide), if_neg (by decide)]
      rfl

theorem serializeLanguages_deserializeLanguages (languages : List Language) :
    serializeLanguages (deserializeLanguages languages) = languages := by
  rw [serializeLanguages_eq]
  unfold deserializeLanguages
  rw [foldl_append_singleton (fun language : Language =>
    ({ default_code := language.DefaultCode, language := language.Language,
       version := language.Version } : FlatLanguage))]
  rw [List.nil_append, List.map_map]
  exact map_eq_self _ (fun _ => rfl) _

theorem serializeValidators_deserializeValidators (validators : List Validator) :
    serializeValidators (deserializeValidators validators)
      = validators.map allocatedValidator := by
  rw [serializeValidators_eq]
  unfold deserializeValidators
  rw [foldl_append_singleton (fun v : Validator =>
    ({ id := v.ID, is_hidden := v.IsHidden, inputs := v.Input.Stdin,
       outputs := v.Output.Stdout } : FlatValidator))]
  rw [List.nil_append, List.map_map]
  rfl

theorem serializeHints_deserializeHints (items : List ItemIdentifier) :
    serializeHints (deserializeHints items) = items := by
  rw [serializeHints_eq]
  unfold deserializeHints
  rw [foldl_append_singleton (fun item : ItemIdentifier => item.ID)]
  rw [List.nil_append, List.map_map]
  exact map_eq_self _ (fun _ => rfl) _

theorem editorComponent_editorEntry (child : Component) (key : Nat)
    (h : isEditorLeaf child = true) :
    editorComponent (editorEntry child key) = reallocate child := by
  cases child with
  | mk ID Type_ Orientation Markdown EditorSettings Validators Items Components vNil iNil cNil =>
    cases EditorSettings with
    | mk Languages lNil =>
      simp only [isEditorLeaf, Bool.and_eq_true, decide_eq_true_eq, List.isEmpty_iff] at h
      obtain ⟨⟨⟨h1, h2⟩, h3⟩, h4⟩ := h
      subst h1 h2 h3 h4
      rw [reallocate, if_neg (by decide), if_pos rfl]
      simp only [editorComponent, editorEntry, serializeLanguages_deserializeLanguages,
        serializeValidators_deserializeValidators, serializeHints_deserializeHints]
      rfl

theorem isMarkdownLeaf_type (c : Component) (h : isMarkdownLeaf c = true) :
    c.Type_ = "markdown" := by
  simp only [isMarkdownLeaf, Bool.and_eq_true, decide_eq_true_eq] at h
  exact h.1.1.1.1.1

theorem isEditorLeaf_type (c : Component) (h : isEditorLeaf c = true) :
    c.Type_ = "editor" := by
  simp only [isEditorLeaf, Bool.and_eq_true, decide_eq_true_eq] at h
  exact h.1.1.1

theorem restrictedTree_type (c : Component) (h : restrictedTree c = true) :
    c.Type_ = "container" := ((restrictedTree_iff c).1 h).1

theorem length_filter_enumFrom {α : Type} (cs : List α) (key : Nat) (P : α → Bool) :
    ((cs.enumFrom key).filter (fun ic => P ic.2)).length = cs.countP P := by
  induction cs generalizing key with
  | nil => rfl
  | cons c rest ih =>
    rw [List.enumFrom_cons, List.filter_cons, List.countP_cons]
    cases hP : P c
    · simp [ih]
    · simp [ih]

/-- Children that each have one of the three types are counted by type. -/
theorem length_eq_countP_types (cs : List Component)
    (h : ∀ c ∈ cs, c.Type_ = "markdown" ∨ c.Type_ = "editor" ∨ c.Type_ = "container") :
    cs.length =
      cs.countP (fun c => decide (c.Type_ = "markdown"))
        + cs.countP (fun c => decide (c.Type_ = "editor"))
        + cs.countP isContainerType := by
  induction cs with
  | nil => rfl
  | cons c rest ih =>
    obtain ⟨hc, hrest⟩ := List.forall_mem_cons.1 h
    rw [List.length_cons, List.countP_cons, List.countP_cons, List.countP_cons, ih hrest]
    unfold isContainerType
    rcases hc with hc | hc | hc <;> rw [hc] <;> simp <;> omega

/-- With at most one container-typed child, either there is none or it has one index. -/
theorem container_child_cases (cs : List Component)
    (hcount : cs.countP isContainerType ≤ 1) :
    ((∀ c ∈ cs, c.Type_ ≠ "container") ∧ cs.countP isContainerType = 0)
      ∨ (∃ (k : Nat) (c : Component), cs[k]? = some c ∧ c.Type_ = "container"
          ∧ cs.countP isContainerType = 1
          ∧ ∀ (j : Nat) (c2 : Component), cs[j]? = some c2 → c2.Type_ = "container" →
              j = k) := by
  induction cs with
  | nil => exact Or.inl ⟨by simp, rfl⟩
  | cons c rest ih =>
    rw [List.countP_cons] at hcount
    by_cases hc : c.Type_ = "container"
    · have hct : isContainerType c = true := by simp [isContainerType, hc]
      rw [if_pos hct] at hcount
      have hzero : rest.countP isContainerType = 0 := by omega
      have hnone : ∀ c2 ∈ rest, c2.Type_ ≠ "container" := by
        intro c2 hc2 htype
        have := List.countP_eq_zero.1 hzero c2 hc2
        simp [isContainerType, htype] at this
      right
      refine ⟨0, c, by simp, hc, by rw [List.countP_cons, if_pos hct, hzero], ?_⟩
      intro j c2 hj htype
      cases j with
      | zero => rfl
      | succ j2 =>
        have hj2 : rest[j2]? = some c2 := by simpa using hj
        exact absurd htype (hnone c2 (List.mem_iff_getElem?.2 ⟨j2, hj2⟩))
    · have hct : ¬ isContainerType c = true := by simp [isContainerType, hc]
      rw [if_neg hct] at hcount
      rcases ih (by omega) with ⟨hnone, hzero⟩ | ⟨k, c1, hk, hc1, hone, huniq⟩
      · left
        refine ⟨?_, by rw [List.countP_cons, if_neg hct, hzero]⟩
        intro c2 hc2
        rcases List.mem_cons.1 hc2 with rfl | hmem
        · exact hc
        · exact hnone c2 hmem
      · right
        refine ⟨k + 1, c1, by simpa using hk, hc1,
          by rw [List.countP_cons, if_neg hct, hone], ?_⟩
        intro j c2 hj htype
        cases j with
        | zero =>
          simp only [List.getElem?_cons_zero, Option.some.injEq] at hj
          subst hj
          exact absurd htype hc
        | succ j2 =>
          have hj2 : rest[j2]? = some c2 := by simpa using hj
          rw [huniq j2 c2 hj2 htype]

theorem reallocate_of_restricted (T : Component) (hT : restrictedTree T = true) :
    reallocate T = { Component.zero with
                     ID := T.ID
                     Orientation := T.Orientation
                     Type_ := "container"
                     Components := T.Components.map reallocate
                     ComponentsNil := false } := by
  obtain ⟨h1, h2, h3, h4, h5, -, -⟩ := (restrictedTree_iff T).1 hT
  cases T with
  | mk ID Type_ Orientation Markdown EditorSettings Validators Items Components vNil iNil cNil =>
    cases EditorSettings with
    | mk Languages lNil =>
      simp only at h1 h2 h3 h4 h5
      subst h1 h2 h3 h4 h5
      rw [reallocate, if_pos rfl, reallocateAll_eq_map]
      rfl

theorem allocatedValidator_idem (v : Validator) :
    allocatedValidator (allocatedValidator v) = allocatedValidator v := rfl

theorem map_allocatedValidator_idem (vs : List Validator) :
    (vs.map allocatedValidator).map allocatedValidator = vs.map allocatedValidator := by
  rw [List.map_map]
  rfl

/-- Reallocation changes nothing but which slices are `nil`. -/
theorem eraseNil_reallocate (T : Component) : eraseNil (reallocate T) = eraseNil T := by
  refine Component.rec
    (motive_1 := fun T => eraseNil (reallocate T) = eraseNil T)
    (motive_2 := fun cs => eraseNilAll (reallocateAll cs) = eraseNilAll cs)
    ?_ ?_ ?_ T
  · intro ID Type_ Orientation Markdown EditorSettings Validators Items Components vNil iNil
      cNil ih
    rw [reallocate]
    split
    · rw [eraseNil, eraseNil, ih]
    · split
      · rw [eraseNil, eraseNil, ih, map_allocatedValidator_idem]
      · rw [eraseNil, eraseNil, ih]
  · rfl
  · intro head tail ihHead ihTail
    rw [reallocateAll, eraseNilAll, eraseNilAll, ihHead, ihTail]

/-- One level of the restricted round trip: when the container-typed children of a
restricted tree come back reallocated, so does the tree. -/
theorem roundTrip_level (T : Component) (sched : Schedule) (p : Int)
    (hT : restrictedTree T = true)
    (hnested : ∀ child ∈ T.Components, restrictedTree child = true →
      ∀ (s : Schedule) (q : Int),
        ∃ e, deserializeRootComponent child q = [e]
          ∧ serializeRootComponent s e = .ok (reallocate child)) :
    ∃ entry, deserializeRootComponent T p = [entry]
      ∧ serializeRootComponent sched entry = .ok (reallocate T) := by
  obtain ⟨-, -, -, -, -, hcount, hch⟩ := (restrictedTree_iff T).1 hT
  have hkinds := (restrictedChildren_iff _).1 hch
  have htypes : ∀ c ∈ T.Components,
      c.Type_ = "markdown" ∨ c.Type_ = "editor" ∨ c.Type_ = "container" := by
    intro c hc
    rcases hkinds c hc with h | h | h
    · exact Or.inl (isMarkdownLeaf_type c h)
    · exact Or.inr (Or.inl (isEditorLeaf_type c h))
    · exact Or.inr (Or.inr (restrictedTree_type c h))
  -- the container list of the entry
  have hcontainer :
      (deserializeChildren T.Components 0 ⟨[], [], []⟩).container.length
          = T.Components.countP isContainerType
        ∧ (∀ (i : Nat) (k : FlatContainer),
            (deserializeChildren T.Components 0 ⟨[], [], []⟩).container[i]? = some k →
            ∃ ck, serializeRootComponent (sched.nested i) k = .ok ck
              ∧ (T.Components.map reallocate)[(k.position - 1).toNat]? = some ck)
        ∧ (∀ (i : Nat) (c : Component), T.Components[i]? = some c →
            c.Type_ = "container" →
            ∃ (j : Nat) (k : FlatContainer),
              (deserializeChildren T.Components 0 ⟨[], [], []⟩).container[j]? = some k
                ∧ k.position = (i : Int) + 1) := by
    rcases container_child_cases T.Components hcount with
      ⟨hnone, hzero⟩ | ⟨k, c, hk, hc, hone, huniq⟩
    · rw [deserializeChildren_container_none _ _ _ hnone]
      refine ⟨by rw [hzero]; rfl, ?_, ?_⟩
      · intro i k hk
        simp at hk
      · intro i c hi hc
        exact absurd hc (hnone c (List.mem_iff_getElem?.2 ⟨i, hi⟩))
    · have hlast : ∀ (j : Nat) (c2 : Component), k < j → T.Components[j]? = some c2 →
          c2.Type_ ≠ "container" := by
        intro j c2 hlt hj ht
        have := huniq j c2 hj ht
        omega
      have hmem : c ∈ T.Components := List.mem_iff_getElem?.2 ⟨k, hk⟩
      have hrc : restrictedTree c = true := by
        rcases hkinds c hmem with h | h | h
        · rw [isMarkdownLeaf_type c h] at hc
          simp at hc
        · rw [isEditorLeaf_type c h] at hc
          simp at hc
        · exact h
      have hD := deserializeChildren_container_last T.Components 0 ⟨[], [], []⟩ k c hk hc
        hlast
      simp only [Nat.zero_add] at hD
      obtain ⟨e, he, hser⟩ := hnested c hmem hrc (sched.nested 0) ((k : Int) + 1)
      have hepos : e.position = (k : Int) + 1 := by
        rw [deserializeRootComponent_eq] at he
        rw [← List.head_eq_of_cons_eq he]
      rw [hD, he]
      refine ⟨by rw [hone]; rfl, ?_, ?_⟩
      · intro i k2 hk2
        cases i with
        | zero =>
          simp only [List.getElem?_cons_zero, Option.some.injEq] at hk2
          subst hk2
          refine ⟨reallocate c, hser, ?_⟩
          rw [hepos, List.getElem?_map]
          have hidx : ((k : Int) + 1 - 1).toNat = k := by omega
          rw [hidx, hk]
          rfl
        | succ i2 => simp at hk2
      · intro i c2 hi hc2
        have := huniq i c2 hi hc2
        subst this
        exact ⟨0, e, by simp, hepos⟩
  obtain ⟨hctlen, hctser, hctcover⟩ := hcontainer
  rw [deserializeRootComponent_eq]
  refine ⟨_, rfl, ?_⟩
  -- number of children
  have hmdlen : (deserializeChildren T.Components 0 ⟨[], [], []⟩).markdown.length
      = T.Components.countP (fun c => decide (c.Type_ = "markdown")) := by
    rw [deserialized_markdown, List.length_map]
    exact length_filter_enumFrom T.Components 0 (fun c => decide (c.Type_ = "markdown"))
  have hedlen : (deserializeChildren T.Components 0 ⟨[], [], []⟩).editor.length
      = T.Components.countP (fun c => decide (c.Type_ = "editor")) := by
    rw [deserialized_editor, List.length_map]
    exact length_filter_enumFrom T.Components 0 (fun c => decide (c.Type_ = "editor"))
  have hlen : T.Components.length
      = (deserializeChildren T.Components 0 ⟨[], [], []⟩).markdown.length
        + (deserializeChildren T.Components 0 ⟨[], [], []⟩).editor.length
        + (deserializeChildren T.Components 0 ⟨[], [], []⟩).container.length := by
    rw [hmdlen, hedlen, hctlen]
    exact length_eq_countP_types T.Components htypes
  -- the entries of the markdown and editor lists
  have hmdmem : ∀ m, m ∈ (deserializeChildren T.Components 0 ⟨[], [], []⟩).markdown ↔
      ∃ (i : Nat) (child : Component), T.Components[i]? = some child
        ∧ child.Type_ = "markdown" ∧ m = markdownEntry child i := by
    intro m
    rw [deserialized_markdown]
    exact mem_filter_enum_map T.Components (fun c => c.Type_ = "markdown") markdownEntry m
  have hedmem : ∀ e, e ∈ (deserializeChildren T.Components 0 ⟨[], [], []⟩).editor ↔
      ∃ (i : Nat) (child : Component), T.Components[i]? = some child
        ∧ child.Type_ = "editor" ∧ e = editorEntry child i := by
    intro e
    rw [deserialized_editor]
    exact mem_filter_enum_map T.Components (fun c => c.Type_ = "editor") editorEntry e
  have hperm : FlatContainer.levelWellPositioned
      ⟨T.ID, p, T.Orientation,
        (deserializeChildren T.Components 0 ⟨[], [], []⟩).markdown,
        (deserializeChildren T.Components 0 ⟨[], [], []⟩).editor,
        (deserializeChildren T.Components 0 ⟨[], [], []⟩).container⟩ := by
    refine (nodup_of_cover _ _ (length_childPositions _) ?_).2
    intro q hq
    obtain ⟨hq1, hq2⟩ := (mem_oneTo _ _).1 hq
    simp only [FlatContainer.childCount, ← hlen] at hq2
    have hi : (q - 1).toNat < T.Components.length := by omega
    obtain ⟨child, hchild⟩ : ∃ child, T.Components[(q - 1).toNat]? = some child :=
      ⟨_, List.getElem?_eq_getElem hi⟩
    have hq3 : (((q - 1).toNat : Nat) : Int) + 1 = q := by omega
    rw [mem_childPositions_iff]
    rcases htypes child (List.mem_iff_getElem?.2 ⟨_, hchild⟩) with ht | ht | ht
    · exact Or.inl ⟨markdownEntry child (q - 1).toNat,
        (hmdmem _).2 ⟨_, child, hchild, ht, rfl⟩, hq3⟩
    · exact Or.inr (Or.inl ⟨editorEntry child (q - 1).toNat,
        (hedmem _).2 ⟨_, child, hchild, ht, rfl⟩, hq3⟩)
    · obtain ⟨j, k, hjk, hkpos⟩ := hctcover _ child hchild ht
      exact Or.inr (Or.inr ⟨j, k, hjk, by rw [hkpos, hq3]⟩)
  have hgoal := serializeRootComponent_eq_ok_of_components sched
    ⟨T.ID, p, T.Orientation,
      (deserializeChildren T.Components 0 ⟨[], [], []⟩).markdown,
      (deserializeChildren T.Components 0 ⟨[], [], []⟩).editor,
      (deserializeChildren T.Components 0 ⟨[], [], []⟩).container⟩
    (T.Components.map reallocate) hperm (by rw [List.length_map]; exact hlen)
    (by
      intro m hm
      obtain ⟨i, child, hi, ht, rfl⟩ := (hmdmem m).1 hm
      have hleaf : isMarkdownLeaf child = true := by
        rcases hkinds child (List.mem_iff_getElem?.2 ⟨i, hi⟩) with h | h | h
        · exact h
        · rw [isEditorLeaf_type child h] at ht
          simp at ht
        · rw [restrictedTree_type child h] at ht
          simp at ht
      rw [markdownComponent_markdownEntry child i hleaf]
      have hidx : ((markdownEntry child i).position - 1).toNat = i := by
        simp only [markdownEntry]
        omega
      rw [hidx, List.getElem?_map, hi]
      rfl)
    (by
      intro e he
      obtain ⟨i, child, hi, ht, rfl⟩ := (hedmem e).1 he
      have hleaf : isEditorLeaf child = true := by
        rcases hkinds child (List.mem_iff_getElem?.2 ⟨i, hi⟩) with h | h | h
        · rw [isMarkdownLeaf_type child h] at ht
          simp at ht
        · exact h
        · rw [restrictedTree_type child h] at ht
          simp at ht
      rw [editorComponent_editorEntry child i hleaf]
      have hidx : ((editorEntry child i).position - 1).toNat = i := by
        simp only [editorEntry]
        omega
      rw [hidx, List.getElem?_map, hi]
      rfl)
    hctser
  rw [hgoal]
  exact congrArg Outcome.ok (reallocate_of_restricted T hT).symm

/-- The restricted round trip, for every schedule and every position: the serializer gives
back the tree with its slices allocated its own way. -/
theorem roundTrip_of_restricted (T : Component) :
    restrictedTree T = true → ∀ (sched : Schedule) (p : Int),
      ∃ entry, deserializeRootComponent T p = [entry]
        ∧ serializeRootComponent sched entry = .ok (reallocate T) := by
  refine Component.rec
    (motive_1 := fun T => restrictedTree T = true → ∀ (sched : Schedule) (p : Int),
      ∃ entry, deserializeRootComponent T p = [entry]
        ∧ serializeRootComponent sched entry = .ok (reallocate T))
    (motive_2 := fun children => ∀ child ∈ children, restrictedTree child = true →
      ∀ (sched : Schedule) (p : Int),
        ∃ entry, deserializeRootComponent child p = [entry]
          ∧ serializeRootComponent sched entry = .ok (reallocate child))
    ?_ ?_ ?_ T
  · intro ID Type_ Orientation Markdown EditorSettings Validators Items Components vNil iNil
      cNil ih hT
      sched p
    exact roundTrip_level _ sched p hT ih
  · intro child hchild
    cases hchild
  · intro head tail ihHead ihTail child hchild
    rcases List.mem_cons.1 hchild with rfl | hmem
    · exact ihHead
    · exact ihTail child hmem

/-! ## The first child out of range -/

/-- A run whose jobs before the first out-of-range one are in range and built stops at
that job with the out-of-range error, whatever the jobs after it are. -/
theorem runJobs_first_outOfRange (length : Nat) (pre : List Job) (job : Job)
    (post : List Job) (st : SerializeState)
    (hc : st.childComponents.length = length) (hp : st.positions.length = length)
    (hpre : ∀ j ∈ pre, 1 ≤ j.1 ∧ j.1 ≤ length ∧ ∃ c, j.2 = .ok c)
    (hjob : (length : Int) < job.1) :
    runJobs length (pre ++ job :: post) st = .error (.positionTooLarge job.1 length) := by
  rw [runJobs_append, (runJobs_eq_ok_iff length pre st _ hc hp).2 ⟨hpre, rfl⟩,
    Outcome.bind_ok, runJobs, if_pos hjob]

/-- A list with an element satisfying a predicate splits at the first such element. -/
theorem exists_first {α : Type} (P : α → Prop) (l : List α) (h : ∃ x ∈ l, P x) :
    ∃ (pre : List α) (x : α) (post : List α),
      l = pre ++ x :: post ∧ (∀ y ∈ pre, ¬ P y) ∧ P x := by
  classical
  induction l with
  | nil =>
    obtain ⟨x, hx, -⟩ := h
    cases hx
  | cons a rest ih =>
    by_cases ha : P a
    · exact ⟨[], a, rest, rfl, by simp, ha⟩
    · obtain ⟨x, hx, hPx⟩ := h
      have hrest : ∃ x ∈ rest, P x := by
        rcases List.mem_cons.1 hx with rfl | hmem
        · exact absurd hPx ha
        · exact ⟨x, hmem, hPx⟩
      obtain ⟨pre, y, post, hl, hpre, hy⟩ := ih hrest
      refine ⟨a :: pre, y, post, by rw [hl]; rfl, ?_, hy⟩
      intro z hz
      rcases List.mem_cons.1 hz with rfl | hmem
      · exact ha
      · exact hpre z hmem

/-- A level with a declared position above `N` returns no component. -/
theorem not_ok_of_outOfRange (sched : Schedule) (rootComponent : FlatContainer)
    (hout : ∃ p ∈ rootComponent.childPositions, (rootComponent.childCount : Int) < p) :
    (serializeRootComponent sched rootComponent).isOk = false := by
  cases hok : (serializeRootComponent sched rootComponent).isOk with
  | false => rfl
  | true =>
    obtain ⟨c, hc⟩ := (isOk_eq_true_iff _).1 hok
    have hperm := levelWellPositioned_of_ok sched rootComponent c hc
    obtain ⟨p, hp, hlt⟩ := hout
    have := ((mem_oneTo _ _).1 ((hperm.mem_iff).1 hp)).2
    omega

/-- What the create and update operations do when the serializer returns no component: on
an error, exactly one diagnostic, of severity error, in an unchanged world; on a panic, a
panic in an unchanged world. No call to the remote API and no write to the resource data
is made in either case. -/
theorem resourceContent_of_serialize_failure (sched : Schedule) (env : Env) (w : World)
    (container0 : FlatContainer) (h0 : w.d.container.head? = some container0) :
    (∀ err, serializeRootComponent sched container0 = .error err →
        resourceContentCreate sched env w = .returned [serializeDiagnostic err] w
          ∧ resourceContentUpdate sched env w = .returned [serializeDiagnostic err] w
          ∧ (serializeDiagnostic err).Severity = .Error)
      ∧ (serializeRootComponent sched container0 = .panic →
          resourceContentCreate sched env w = .panicked w
            ∧ resourceContentUpdate sched env w = .panicked w) := by
  refine ⟨?_, ?_⟩
  · intro err herr
    refine ⟨?_, ?_, rfl⟩
    · unfold resourceContentCreate
      simp only [h0, herr]
    · unfold resourceContentUpdate
      simp only [h0, herr]
  · intro hp
    refine ⟨?_, ?_⟩
    · unfold resourceContentCreate
      simp only [h0, hp]
    · unfold resourceContentUpdate
      simp only [h0, hp]

/-- The request `duplicateRequest`, whose root container declares positions 1, 2, 2, against
a remote API that would accept the content: one error diagnostic, no call, no write. -/
theorem resourceContent_duplicateRequest :
    resourceContentCreate sourceOrder ⟨echoClient, fun _ => none, "now"⟩ duplicateRequest
        = .returned [serializeDiagnostic (.childMissing 3 3)] duplicateRequest
      ∧ resourceContentUpdate sourceOrder ⟨echoClient, fun _ => none, "now"⟩ duplicateRequest
        = .returned [serializeDiagnostic (.childMissing 3 3)] duplicateRequest
      ∧ duplicateRequest.calls = [] ∧ duplicateRequest.writes = [] :=
  ⟨((resourceContent_of_serialize_failure sourceOrder ⟨echoClient, fun _ => none, "now"⟩
      duplicateRequest duplicateFlat rfl).1 _ rfl).1,
    ((resourceContent_of_serialize_failure sourceOrder ⟨echoClient, fun _ => none, "now"⟩
      duplicateRequest duplicateFlat rfl).1 _ rfl).2.1,
    rfl, rfl⟩

theorem serializeRootComponent_zeroPositionFlat (sched : Schedule) :
    serializeRootComponent sched zeroPositionFlat = .panic := by
  rw [serializeRootComponent_eq]
  unfold jobs
  cases sched [] <;> rfl

/-! # The claims -/

/-! ## C1 -/

/-- C1 at the failing input: for the tree whose root holds two container children, the
deserializer keeps only the second one, declared at position 2 of a level with one child,
and the serializer rejects the entry under every key order: the round trip fails. -/
theorem roundTrip_twoContainers_fails (sched : Schedule) (position : Int) :
    ∃ entry, deserializeRootComponent twoContainersTree position = [entry]
      ∧ entry.container.length = 1
      ∧ serializeRootComponent sched entry = .error (.positionTooLarge 2 1) := by
  refine ⟨_, rfl, rfl, ?_⟩
  rw [serializeRootComponent_eq]
  unfold jobs
  cases sched [] <;> rfl

/-! ## C2 -/

/-- C2 at the failing input: the `position` validator accepts 0, the level with one
markdown child at position 0 is not a permutation of `1..1`, and the serializer panics on
it (store at index -1) under every key order instead of returning an error. -/
theorem serializeRootComponent_zeroPosition_panics (sched : Schedule) :
    positionValidateFunc 0 = []
      ∧ ¬ zeroPositionFlat.levelWellPositioned
      ∧ serializeRootComponent sched zeroPositionFlat = .panic := by
  refine ⟨rfl, by decide, ?_⟩
  rw [serializeRootComponent_eq]
  unfold jobs
  cases sched [] <;> rfl

/-! ## C3 -/

/-- C3: a flat container whose declared child positions are a permutation of `1..N` at this
level and at every nested container level serializes, under every key order, to a component
of type `container` with the input's id and orientation and exactly `N` children; the child
at index `p - 1` is the component built from the entry declared at position `p`: the
markdown component, the editor component, or the serialization of the nested entry. -/
theorem serializeRootComponent_wellPositioned (sched : Schedule)
    (rootComponent : FlatContainer) (h : wellPositioned rootComponent = true) :
    ∃ c, serializeRootComponent sched rootComponent = .ok c
      ∧ c.Type_ = "container" ∧ c.ID = rootComponent.id
      ∧ c.Orientation = rootComponent.orientation
      ∧ c.Components.length = rootComponent.childCount
      ∧ (∀ m ∈ rootComponent.markdown,
          c.Components[(m.position - 1).toNat]? = some (markdownComponent m))
      ∧ (∀ e ∈ rootComponent.editor,
          c.Components[(e.position - 1).toNat]? = some (editorComponent e))
      ∧ (∀ i k, rootComponent.container[i]? = some k →
          ∃ ck, serializeRootComponent (sched.nested i) k = .ok ck
            ∧ c.Components[(k.position - 1).toNat]? = some ck) := by
  obtain ⟨hlevel, hall⟩ := (wellPositioned_iff _).1 h
  refine serializeRootComponent_level sched rootComponent hlevel ?_
  intro i k hk
  have hmem : k ∈ rootComponent.container := List.mem_iff_getElem?.2 ⟨i, hk⟩
  exact serializeRootComponent_isOk_of_wellPositioned k
    ((wellPositionedAll_iff _).1 hall k hmem) _

/-- C3 at `exampleFlat` (editor at 1, nested container at 2, markdown at 3). -/
theorem serializeRootComponent_wellPositioned_witness :
    wellPositioned exampleFlat = true ∧
    ∃ c, serializeRootComponent sourceOrder exampleFlat = .ok c
      ∧ c.Type_ = "container" ∧ c.ID = exampleFlat.id
      ∧ c.Orientation = exampleFlat.orientation
      ∧ c.Components.length = exampleFlat.childCount
      ∧ (∀ m ∈ exampleFlat.markdown,
          c.Components[(m.position - 1).toNat]? = some (markdownComponent m))
      ∧ (∀ e ∈ exampleFlat.editor,
          c.Components[(e.position - 1).toNat]? = some (editorComponent e))
      ∧ (∀ i k, exampleFlat.container[i]? = some k →
          ∃ ck, serializeRootComponent (sourceOrder.nested i) k = .ok ck
            ∧ c.Components[(k.position - 1).toNat]? = some ck) :=
  ⟨by decide, serializeRootComponent_wellPositioned sourceOrder exampleFlat (by decide)⟩

/-! ## C4 -/

/-- C4: at a level with `N` children whose positions all lie in `1..N`, whose nested
container entries each serialize, and where two children declare the same position, the
serializer fails, under every key order, with the missing-position error naming `N` and the
smallest position of `1..N` that no child declares. -/
theorem serializeRootComponent_duplicate (sched : Schedule) (rootComponent : FlatContainer)
    (hrange : ∀ p ∈ rootComponent.childPositions, 1 ≤ p ∧ p ≤ rootComponent.childCount)
    (hnested : ∀ i k, rootComponent.container[i]? = some k →
      ∃ ck, serializeRootComponent (sched.nested i) k = .ok ck)
    (hdup : ¬ rootComponent.childPositions.Nodup) :
    ∃ q : Nat, 1 ≤ q ∧ q ≤ rootComponent.childCount
      ∧ (q : Int) ∉ rootComponent.childPositions
      ∧ (∀ r : Nat, 1 ≤ r → r < q → (r : Int) ∈ rootComponent.childPositions)
      ∧ serializeRootComponent sched rootComponent
          = .error (.childMissing q rootComponent.childCount) := by
  have hbuilt := jobs_built_of_nested sched rootComponent hnested
  have hgood : ∀ job ∈ jobs sched rootComponent,
      1 ≤ job.1 ∧ job.1 ≤ rootComponent.childCount ∧ ∃ c2, job.2 = .ok c2 := by
    intro job hjob
    obtain ⟨h1, h2⟩ := hrange _ (mem_childPositions_of_job sched rootComponent job hjob)
    exact ⟨h1, h2, hbuilt job hjob⟩
  rw [serializeRootComponent_of_good sched rootComponent hgood]
  unfold finish
  have hlen : ((SerializeState.init rootComponent.childCount).placeAll
      (placed (jobs sched rootComponent))).positions.length = rootComponent.childCount := by
    simp [placeAll_positions_length, SerializeState.init]
  cases hscan : firstUnfilled ((SerializeState.init rootComponent.childCount).placeAll
      (placed (jobs sched rootComponent))).positions 0 with
  | none =>
    exfalso
    apply hdup
    refine (nodup_of_cover _ _ (length_childPositions rootComponent) ?_).1
    intro p hp
    obtain ⟨hp1, hp2⟩ := (mem_oneTo _ _).1 hp
    have hfill := (firstUnfilled_eq_none _ _).1 hscan (slot p) (by
      rw [hlen]; unfold slot; omega)
    rw [init_placeAll_filled _ _ _ (by unfold slot; omega)] at hfill
    obtain ⟨w, hw, hws⟩ := hfill
    have hwmem := mem_childPositions_of_placed sched rootComponent w hw
    have : w.1 = p := slot_injOn (hrange _ hwmem).1 hp1 hws
    rw [← this]
    exact hwmem
  | some i =>
    obtain ⟨j, hj, hfalse, hbefore⟩ := firstUnfilled_eq_some _ _ _ hscan
    have hij : i = j := by omega
    subst hij
    have hi : i < rootComponent.childCount := by
      rw [← hlen]
      exact (List.getElem?_eq_some.1 hfalse).1
    refine ⟨i + 1, by omega, by omega, ?_, ?_, rfl⟩
    · intro hmem
      obtain ⟨w, hw, hw1⟩ :=
        exists_placed_of_mem_childPositions sched rootComponent hbuilt _ hmem
      have hfill := (init_placeAll_filled rootComponent.childCount
        (placed (jobs sched rootComponent)) i hi).2
        ⟨w, hw, by rw [hw1]; exact slot_ofNat_succ i⟩
      rw [hfalse] at hfill
      cases hfill
    · intro r hr1 hr2
      have hfill := hbefore (r - 1) (by omega)
      rw [init_placeAll_filled _ _ _ (by omega)] at hfill
      obtain ⟨w, hw, hws⟩ := hfill
      have hwmem := mem_childPositions_of_placed sched rootComponent w hw
      have hw1 := (hrange _ hwmem).1
      have : w.1 = (r : Int) := by
        unfold slot at hws
        omega
      rw [← this]
      exact hwmem

/-- C4 at `duplicateFlat`: markdown children declared at positions 1, 2, 2. -/
theorem serializeRootComponent_duplicate_witness :
    (¬ duplicateFlat.childPositions.Nodup) ∧
    ∃ q : Nat, 1 ≤ q ∧ q ≤ duplicateFlat.childCount
      ∧ (q : Int) ∉ duplicateFlat.childPositions
      ∧ (∀ r : Nat, 1 ≤ r → r < q → (r : Int) ∈ duplicateFlat.childPositions)
      ∧ serializeRootComponent sourceOrder duplicateFlat
          = .error (.childMissing q duplicateFlat.childCount) :=
  ⟨by decide, serializeRootComponent_duplicate sourceOrder duplicateFlat (by decide)
    (by intro i k hk; cases i <;> simp [duplicateFlat] at hk) (by decide)⟩

/-! ## C5 -/

/-- C5 as the code has it: at a level with `N` declared children in which some child
declares a position above `N`, the serializer returns no component. The jobs of the call,
in processing order, split at the first child whose position exceeds `N`; when every
child processed before that one has its position in `1..N` and its component built (a
nested container entry serializes), the serializer fails with the position-out-of-range
error naming `N` and the position of that first child, whatever the children processed
after it are. -/
theorem serializeRootComponent_outOfRange (sched : Schedule) (rootComponent : FlatContainer)
    (hout : ∃ p ∈ rootComponent.childPositions, (rootComponent.childCount : Int) < p) :
    (serializeRootComponent sched rootComponent).isOk = false
      ∧ (∃ (pre : List Job) (job : Job) (post : List Job),
          jobs sched rootComponent = pre ++ job :: post
            ∧ (∀ j ∈ pre, j.1 ≤ rootComponent.childCount)
            ∧ (rootComponent.childCount : Int) < job.1
            ∧ job.1 ∈ rootComponent.childPositions)
      ∧ (∀ (pre : List Job) (job : Job) (post : List Job),
          jobs sched rootComponent = pre ++ job :: post →
          (∀ j ∈ pre, 1 ≤ j.1 ∧ j.1 ≤ rootComponent.childCount ∧ ∃ c, j.2 = .ok c) →
          (rootComponent.childCount : Int) < job.1 →
          serializeRootComponent sched rootComponent
            = .error (.positionTooLarge job.1 rootComponent.childCount)) := by
  refine ⟨not_ok_of_outOfRange sched rootComponent hout, ?_, ?_⟩
  · obtain ⟨p, hp, hlt⟩ := hout
    have hp2 : p ∈ (jobs sched rootComponent).map (fun job => job.1) :=
      ((processedPositions_perm sched rootComponent).mem_iff).2 hp
    obtain ⟨job0, hjob0, hj0⟩ := List.mem_map.1 hp2
    obtain ⟨pre, job, post, hsplit, hpre, hjob⟩ :=
      exists_first (fun j : Job => (rootComponent.childCount : Int) < j.1)
        (jobs sched rootComponent) ⟨job0, hjob0, by simp only [hj0]; exact hlt⟩
    refine ⟨pre, job, post, hsplit, fun j hj => by have := hpre j hj; omega, hjob, ?_⟩
    apply mem_childPositions_of_job sched rootComponent job
    rw [hsplit]
    exact List.mem_append_right _ (List.mem_cons_self _ _)
  · intro pre job post hsplit hpre hjob
    rw [serializeRootComponent_eq, hsplit,
      runJobs_first_outOfRange _ pre job post _ (by simp [SerializeState.init])
        (by simp [SerializeState.init]) hpre hjob]
    rfl

/-- C5 (amended) at `outOfRangeThenZeroFlat`: markdown children declared at positions 1, 5
and 0; the error names position 5 although a child processed later declares position 0. -/
theorem serializeRootComponent_outOfRange_witness :
    (∃ p ∈ outOfRangeThenZeroFlat.childPositions,
        (outOfRangeThenZeroFlat.childCount : Int) < p)
      ∧ (serializeRootComponent sourceOrder outOfRangeThenZeroFlat).isOk = false
      ∧ serializeRootComponent sourceOrder outOfRangeThenZeroFlat
          = .error (.positionTooLarge 5 3) :=
  ⟨⟨5, by decide, by decide⟩,
    (serializeRootComponent_outOfRange sourceOrder outOfRangeThenZeroFlat
      ⟨5, by decide, by decide⟩).1,
    (serializeRootComponent_outOfRange sourceOrder outOfRangeThenZeroFlat
      ⟨5, by decide, by decide⟩).2.2
      [(1, .ok (markdownComponent ⟨"a", 1, "A"⟩))]
      (5, .ok (markdownComponent ⟨"b", 5, "B"⟩))
      [(0, .ok (markdownComponent ⟨"c", 0, "C"⟩))]
      rfl
      (by
        intro j hj
        rw [List.mem_singleton] at hj
        subst hj
        exact ⟨by decide, by decide, _, rfl⟩)
      (by decide)⟩

/-- C5 as stated fails, for the error does depend on the other children. With markdown
children declared at positions 7 and 5 and `N = 2`, a child declares position 5 > 2, yet
the error names position 7. With two container children, the second declared at position
9 > 2 and the first failing inside, the error is the one of the first child's own level
(position 3, one child) and names neither 9 nor 2. -/
theorem serializeRootComponent_outOfRange_counterexample :
    ((5 : Int) ∈ twoOutOfRangeFlat.childPositions
      ∧ (twoOutOfRangeFlat.childCount : Int) < 5
      ∧ serializeRootComponent sourceOrder twoOutOfRangeFlat
          = .error (.positionTooLarge 7 2)
      ∧ serializeRootComponent sourceOrder twoOutOfRangeFlat
          ≠ .error (.positionTooLarge 5 twoOutOfRangeFlat.childCount))
    ∧ ((9 : Int) ∈ nestedFirstFlat.childPositions
      ∧ (nestedFirstFlat.childCount : Int) < 9
      ∧ serializeRootComponent sourceOrder nestedFirstFlat
          = .error (.positionTooLarge 3 1)
      ∧ serializeRootComponent sourceOrder nestedFirstFlat
          ≠ .error (.positionTooLarge 9 nestedFirstFlat.childCount)) := by
  refine ⟨⟨by decide, by decide, rfl, ?_⟩, ⟨by decide, by decide, rfl, ?_⟩⟩
  · intro h
    have h2 : serializeRootComponent sourceOrder twoOutOfRangeFlat
        = .error (.positionTooLarge 7 2) := rfl
    rw [h2] at h
    simp at h
  · intro h
    have h2 : serializeRootComponent sourceOrder nestedFirstFlat
        = .error (.positionTooLarge 3 1) := rfl
    rw [h2] at h
    simp at h

/-! ## C6 -/

/-- C6: for every component, the markdown list of `deserializeRootComponent` is exactly the
markdown-typed children in stored order and the editor list exactly the editor-typed
children in stored order, each entry carrying its child's id (and content or settings) and
position = index of the child among all children + 1; so the positions within each list
are strictly increasing. -/
theorem deserializeRootComponent_markdown_editor (rootComponent : Component)
    (position : Int) :
    ∃ entry, deserializeRootComponent rootComponent position = [entry]
      ∧ entry.markdown =
          (rootComponent.Components.enum.filter
            (fun ic => decide (ic.2.Type_ = "markdown"))).map
            (fun ic => ({ id := ic.2.ID
                          content := ic.2.Markdown
                          position := (ic.1 : Int) + 1 } : FlatMarkdown))
      ∧ entry.editor =
          (rootComponent.Components.enum.filter
            (fun ic => decide (ic.2.Type_ = "editor"))).map
            (fun ic => editorEntry ic.2 ic.1)
      ∧ (∀ (child : Component) (key : Nat),
          (editorEntry child key).id = child.ID
            ∧ (editorEntry child key).position = (key : Int) + 1)
      ∧ (entry.markdown.map (fun m => m.position)).Pairwise (· < ·)
      ∧ (entry.editor.map (fun e => e.position)).Pairwise (· < ·) := by
  rw [deserializeRootComponent_eq]
  refine ⟨_, rfl, ?_, ?_, fun _ _ => ⟨rfl, rfl⟩, ?_, ?_⟩
  · simp only [deserializeChildren_markdown, List.nil_append, List.enum]
    rfl
  · simp only [deserializeChildren_editor, List.nil_append, List.enum]
  · simp only [deserializeChildren_markdown, List.nil_append, List.map_map]
    exact pairwise_filter_enumFrom _ _ _
  · simp only [deserializeChildren_editor, List.nil_append, List.map_map]
    exact pairwise_filter_enumFrom _ _ _

/-! ## C7 -/

/-- C7: the `container` list of `deserializeRootComponent` is empty when no child has type
`container`; otherwise it is `deserializeRootComponent c (k + 1)` for the last
container-typed child `c`, at index `k`. It has at most one element: earlier container
children are discarded. -/
theorem deserializeRootComponent_container (rootComponent : Component) (position : Int) :
    ∃ entry, deserializeRootComponent rootComponent position = [entry]
      ∧ entry.container.length ≤ 1
      ∧ ((∀ c ∈ rootComponent.Components, c.Type_ ≠ "container") → entry.container = [])
      ∧ (∀ (k : Nat) (c : Component), rootComponent.Components[k]? = some c →
          c.Type_ = "container" →
          (∀ j c2, k < j → rootComponent.Components[j]? = some c2 →
            c2.Type_ ≠ "container") →
          entry.container = deserializeRootComponent c ((k : Int) + 1)) := by
  rw [deserializeRootComponent_eq]
  have hlast : ∀ (k : Nat) (c : Component), rootComponent.Components[k]? = some c →
      c.Type_ = "container" →
      (∀ j c2, k < j → rootComponent.Components[j]? = some c2 → c2.Type_ ≠ "container") →
      (deserializeChildren rootComponent.Components 0 ⟨[], [], []⟩).container
        = deserializeRootComponent c ((k : Int) + 1) := by
    intro k c hk hc hl
    have := deserializeChildren_container_last rootComponent.Components 0 ⟨[], [], []⟩ k c
      hk hc hl
    simpa using this
  have hnone : (∀ c ∈ rootComponent.Components, c.Type_ ≠ "container") →
      (deserializeChildren rootComponent.Components 0 ⟨[], [], []⟩).container = [] :=
    fun h => deserializeChildren_container_none _ _ _ h
  refine ⟨_, rfl, ?_, hnone, hlast⟩
  show (deserializeChildren rootComponent.Components 0 ⟨[], [], []⟩).container.length ≤ 1
  exact deserializeChildren_container_length _ _ _ (by simp)

/-- C7 at `twoContainersTree`, whose root holds two container children. -/
theorem deserializeRootComponent_container_witness :
    ∃ entry, deserializeRootComponent twoContainersTree 0 = [entry]
      ∧ entry.container.length ≤ 1
      ∧ ((∀ c ∈ twoContainersTree.Components, c.Type_ ≠ "container") → entry.container = [])
      ∧ (∀ (k : Nat) (c : Component), twoContainersTree.Components[k]? = some c →
          c.Type_ = "container" →
          (∀ j c2, k < j → twoContainersTree.Components[j]? = some c2 →
            c2.Type_ ≠ "container") →
          entry.container = deserializeRootComponent c ((k : Int) + 1)) :=
  deserializeRootComponent_container twoContainersTree 0

/-! ## C8 -/

/-- C8: the editor case maps `language_settings`, `validator` (id, is_hidden, inputs,
outputs) and `hint` to `Languages`, `Validators` (ID, IsHidden, Input.Stdin, Output.Stdout)
and `Items` in declared order, and the deserializer maps them back unchanged. When the
serializer accepts the container of the entry, the component stands at index
`position - 1` of the children, and deserializing the result gives back the entry itself
in the editor list. -/
theorem editor_roundTrip (sched : Schedule) (rootComponent : FlatContainer) (c : Component)
    (editor : FlatEditor) (position : Int)
    (hser : serializeRootComponent sched rootComponent = .ok c)
    (hmem : editor ∈ rootComponent.editor) :
    ∃ x, c.Components[(editor.position - 1).toNat]? = some x
      ∧ x.Type_ = "editor" ∧ x.ID = editor.id
      ∧ x.EditorSettings.Languages = editor.language_settings.map (fun l =>
          ({ DefaultCode := l.default_code, Language := l.language, Version := l.version }
            : Language))
      ∧ x.Validators = editor.validator.map (fun v =>
          ({ ID := v.id, IsHidden := v.is_hidden, Input := { Stdin := v.inputs },
             Output := { Stdout := v.outputs } } : Validator))
      ∧ x.Items = editor.hint.map (fun item => ({ ID := item } : ItemIdentifier))
      ∧ (∀ key : Nat,
          (editorEntry x key).language_settings = editor.language_settings
            ∧ (editorEntry x key).validator = editor.validator
            ∧ (editorEntry x key).hint = editor.hint
            ∧ (editorEntry x key).id = editor.id)
      ∧ ∃ entry, deserializeRootComponent c position = [entry] ∧ editor ∈ entry.editor := by
  have hlevel := levelWellPositioned_of_ok sched rootComponent c hser
  obtain ⟨c2, hc2, -, -, -, -, -, hed, -⟩ :=
    serializeRootComponent_level sched rootComponent hlevel
      (nested_ok_of_ok sched rootComponent c hser)
  have hcc : c2 = c := by
    rw [hser] at hc2
    exact (Outcome.ok.inj hc2).symm
  subst hcc
  have hx := hed editor hmem
  have hpos : 1 ≤ editor.position := by
    have h1 : editor.position ∈ rootComponent.childPositions := by
      unfold FlatContainer.childPositions
      exact List.mem_append_left _ (List.mem_append_right _
        (List.mem_map_of_mem (fun e => e.position) hmem))
    exact ((mem_oneTo _ _).1 ((hlevel.mem_iff).1 h1)).1
  refine ⟨editorComponent editor, hx, rfl, rfl, serializeLanguages_eq _,
    serializeValidators_eq _, serializeHints_eq _, ?_, ?_⟩
  · intro key
    exact ⟨deserializeLanguages_serializeLanguages _,
      deserializeValidators_serializeValidators _, deserializeHints_serializeHints _, rfl⟩
  · rw [deserializeRootComponent_eq]
    refine ⟨_, rfl, ?_⟩
    show editor ∈ (deserializeChildren c2.Components 0 ⟨[], [], []⟩).editor
    rw [deserializeChildren_editor, List.nil_append]
    refine List.mem_map.2 ⟨((editor.position - 1).toNat, editorComponent editor), ?_, ?_⟩
    · refine List.mem_filter.2 ⟨?_, by simp [editorComponent]⟩
      rw [List.mk_mem_enumFrom_iff_le_and_getElem?_sub]
      exact ⟨Nat.zero_le _, by simpa using hx⟩
    · exact editorEntry_editorComponent editor _ (by simp only []; omega)

/-- C8 at the editor entry of `exampleFlat`, whose validator has inputs `["1 2"]`, outputs
`["3"]` and is hidden. -/
theorem editor_roundTrip_witness :
    serializeRootComponent sourceOrder exampleFlat = .ok exampleTree
      ∧ exampleEditor ∈ exampleFlat.editor
      ∧ ∃ x, exampleTree.Components[(exampleEditor.position - 1).toNat]? = some x
      ∧ x.Type_ = "editor" ∧ x.ID = exampleEditor.id
      ∧ x.EditorSettings.Languages = exampleEditor.language_settings.map (fun l =>
          ({ DefaultCode := l.default_code, Language := l.language, Version := l.version }
            : Language))
      ∧ x.Validators = exampleEditor.validator.map (fun v =>
          ({ ID := v.id, IsHidden := v.is_hidden, Input := { Stdin := v.inputs },
             Output := { Stdout := v.outputs } } : Validator))
      ∧ x.Items = exampleEditor.hint.map (fun item => ({ ID := item } : ItemIdentifier))
      ∧ (∀ key : Nat,
          (editorEntry x key).language_settings = exampleEditor.language_settings
            ∧ (editorEntry x key).validator = exampleEditor.validator
            ∧ (editorEntry x key).hint = exampleEditor.hint
            ∧ (editorEntry x key).id = exampleEditor.id)
      ∧ ∃ entry, deserializeRootComponent exampleTree 0 = [entry]
          ∧ exampleEditor ∈ entry.editor :=
  ⟨rfl, by decide,
    editor_roundTrip sourceOrder exampleFlat exampleTree exampleEditor 0 rfl (by decide)⟩

/-! ## C9 -/

/-- C9: when a flat container contains, at any nesting depth, a container entry whose own
serialization returns no component (an error, or a panic), the serialization of the
outermost container returns no component either, under every schedule. -/
theorem serializeRootComponent_nested_failure (sched : Schedule)
    (rootComponent : FlatContainer) (path : List Nat) (k : FlatContainer)
    (hk : rootComponent.descend path = some k)
    (hfail : (serializeRootComponent (sched.below path) k).isOk = false) :
    (serializeRootComponent sched rootComponent).isOk = false := by
  induction path generalizing rootComponent sched with
  | nil =>
    simp only [FlatContainer.descend, Option.some.injEq] at hk
    subst hk
    have hs : sched.below [] = sched := rfl
    rw [hs] at hfail
    exact hfail
  | cons i rest ih =>
    simp only [FlatContainer.descend] at hk
    cases hi : rootComponent.container[i]? with
    | none => rw [hi] at hk; cases hk
    | some k1 =>
      rw [hi] at hk
      have hinner : (serializeRootComponent (sched.nested i) k1).isOk = false :=
        ih (sched.nested i) k1 hk hfail
      cases hout : (serializeRootComponent sched rootComponent).isOk with
      | false => rfl
      | true =>
        obtain ⟨c, hc⟩ := (isOk_eq_true_iff _).1 hout
        obtain ⟨ck, hck⟩ := nested_ok_of_ok sched rootComponent c hc i k1 hi
        rw [hck] at hinner
        cases hinner

/-- C9 at `deepFailureFlat`: the failing entry lies two levels below the root. -/
theorem serializeRootComponent_nested_failure_witness :
    deepFailureFlat.descend [0, 0]
        = some ⟨"c2", 1, "vertical", [⟨"m", 5, "x"⟩], [], []⟩
      ∧ serializeRootComponent (sourceOrder.below [0, 0])
          ⟨"c2", 1, "vertical", [⟨"m", 5, "x"⟩], [], []⟩ = .error (.positionTooLarge 5 1)
      ∧ (serializeRootComponent sourceOrder deepFailureFlat).isOk = false :=
  ⟨rfl, rfl,
    serializeRootComponent_nested_failure sourceOrder deepFailureFlat [0, 0]
      ⟨"c2", 1, "vertical", [⟨"m", 5, "x"⟩], [], []⟩ rfl rfl⟩

/-! ## C10 -/

/-- C10 as the code has it: in the descriptor generated for the root,
`resourceContentContainer 1`, nesting levels 1, 2 and 3 each expose the optional list slots
`markdown`, `editor` and `container`; the `container` slot of level 3 has the empty shape,
which is the whole level-4 descriptor; level 4 has no `markdown`, `editor` or `container`
key, and there is no level 5. -/
theorem resourceContentContainer_depth :
    (∃ r, descriptorAt 0 = some r
        ∧ r.hasOptionalList "markdown" = true
        ∧ r.hasOptionalList "editor" = true
        ∧ r.hasOptionalList "container" = true)
      ∧ (∃ r, descriptorAt 1 = some r
        ∧ r.hasOptionalList "markdown" = true
        ∧ r.hasOptionalList "editor" = true
        ∧ r.hasOptionalList "container" = true)
      ∧ (∃ r, descriptorAt 2 = some r
        ∧ r.hasOptionalList "markdown" = true
        ∧ r.hasOptionalList "editor" = true
        ∧ r.hasOptionalList "container" = true
        ∧ r.containerElem = some (Resource.mk []))
      ∧ descriptorAt 3 = some (Resource.mk [])
      ∧ (Resource.mk []).hasKey "markdown" = false
      ∧ (Resource.mk []).hasKey "editor" = false
      ∧ (Resource.mk []).hasKey "container" = false
      ∧ descriptorAt 4 = none := by
  refine ⟨⟨_, rfl, hasOptionalList_of_le 1 (by decide)⟩,
    ⟨_, descriptorAt_one, hasOptionalList_of_le 2 (by decide)⟩,
    ⟨_, descriptorAt_two, (hasOptionalList_of_le 3 (by decide)).1,
      (hasOptionalList_of_le 3 (by decide)).2.1, (hasOptionalList_of_le 3 (by decide)).2.2, ?_⟩,
    descriptorAt_three, rfl, rfl, rfl, descriptorAt_four⟩
  rw [containerElem_of_le 3 (by decide)]
  exact congrArg some (resourceContentContainer_of_gt 4 (by decide))

/-- C10 as stated fails at nesting level 4: its descriptor is the empty one, which exposes
no `markdown` slot (nor `editor`, nor `container`). -/
theorem resourceContentContainer_depth_counterexample :
    descriptorAt 3 = some (Resource.mk [])
      ∧ (Resource.mk []).hasOptionalList "markdown" = false
      ∧ (Resource.mk []).hasOptionalList "editor" = false
      ∧ (Resource.mk []).hasOptionalList "container" = false :=
  ⟨descriptorAt_three, rfl, rfl, rfl⟩

/-! ## C11 -/

/-- C11: in the descriptor generated for the root, `resourceContentContainer 1`, nesting
levels 1, 2 and 3 each carry exactly the keys `id`, `position`, `orientation`, `markdown`,
`editor` and `container`, and the level-4 descriptor, the element shape of the `container`
slot of level 3, is the empty stub: it has no key at all. -/
theorem resourceContentContainer_keys :
    (∃ r, descriptorAt 0 = some r
        ∧ r.keys = ["id", "position", "orientation", "markdown", "editor", "container"])
      ∧ (∃ r, descriptorAt 1 = some r
        ∧ r.keys = ["id", "position", "orientation", "markdown", "editor", "container"])
      ∧ (∃ r, descriptorAt 2 = some r
        ∧ r.keys = ["id", "position", "orientation", "markdown", "editor", "container"]
        ∧ ∃ stub, r.containerElem = some stub ∧ descriptorAt 3 = some stub ∧ stub.keys = [])
      := by
  refine ⟨⟨_, rfl, keys_of_le 1 (by decide)⟩, ⟨_, descriptorAt_one, keys_of_le 2 (by decide)⟩,
    ⟨_, descriptorAt_two, keys_of_le 3 (by decide), Resource.mk [], ?_, descriptorAt_three,
      rfl⟩⟩
  rw [containerElem_of_le 3 (by decide)]
  exact congrArg some (resourceContentContainer_of_gt 4 (by decide))

/-! ## C12 -/

/-- C12: for every component `c` and every integer `p`, `deserializeRootComponent c p`
returns a list of exactly one entry, whose id and orientation are the ID and Orientation of
`c` and whose position is `p`. The read operation calls it on the root with `p = 0`: when the
remote API answers and every `d.Set` succeeds, the `container` attribute it leaves is that
one entry, at position 0. -/
theorem deserializeRootComponent_single (c : Component) (p : Int) :
    (∃ entry, deserializeRootComponent c p = [entry]
        ∧ entry.id = c.ID ∧ entry.orientation = c.Orientation ∧ entry.position = p)
      ∧ (∀ (env : Env) (w : World) (content : ContentRecord),
          env.client.GetContent w.d.id = .ok content →
          (∀ key, env.setError key = none) →
          ∃ w2 entry, resourceContentRead env w = .returned [] w2
            ∧ w2.d.container = [entry]
            ∧ deserializeRootComponent content.RootComponent 0 = [entry]
            ∧ entry.position = 0) := by
  refine ⟨?_, ?_⟩
  · rw [deserializeRootComponent_eq]
    exact ⟨_, rfl, rfl, rfl, rfl⟩
  · intro env w content hget hset
    unfold resourceContentRead
    simp only [hget, World.set, hset]
    rw [deserializeRootComponent_eq]
    exact ⟨_, _, rfl, rfl, rfl, rfl⟩

/-- C12 at `exampleTree`, and for a read answered by `echoClient`. -/
theorem deserializeRootComponent_single_witness :
    (∃ entry, deserializeRootComponent exampleTree 7 = [entry]
        ∧ entry.id = exampleTree.ID ∧ entry.orientation = exampleTree.Orientation
        ∧ entry.position = 7)
      ∧ ∃ w2 entry,
          resourceContentRead ⟨echoClient, fun _ => none, "now"⟩ duplicateRequest
              = .returned [] w2
            ∧ w2.d.container = [entry] ∧ entry.position = 0 :=
  ⟨(deserializeRootComponent_single exampleTree 7).1,
    by
      obtain ⟨w2, entry, h1, h2, -, h4⟩ :=
        (deserializeRootComponent_single exampleTree 7).2
          ⟨echoClient, fun _ => none, "now"⟩ duplicateRequest _ rfl (fun _ => rfl)
      exact ⟨w2, entry, h1, h2, h4⟩⟩

/-! ## C13 -/

/-- C13 at the failing input: the string `éé` has two characters and four bytes; the `name`
and `description` validators compare the byte length with 3 and accept it, although their
messages ask for at least 3 characters. In general they accept a string exactly when it
has at least 3 bytes. -/
theorem nameValidateFunc_twoCharacters_accepted :
    "éé".length = 2
      ∧ nameValidateFunc "éé" = []
      ∧ descriptionValidateFunc "éé" = []
      ∧ (∀ s : String, nameValidateFunc s = [] ↔ 3 ≤ s.utf8ByteSize)
      ∧ (∀ s : String, descriptionValidateFunc s = [] ↔ 3 ≤ s.utf8ByteSize) := by
  refine ⟨by decide, by decide, by decide, ?_, ?_⟩
  · intro s
    unfold nameValidateFunc
    split <;> simp <;> omega
  · intro s
    unfold descriptionValidateFunc
    split <;> simp <;> omega

/-! ## C14 -/

/-- C14 at the failing input: the `position` validator accepts 0, so a request can hold a
root container with a markdown child at position 0; its serialization panics under every
key order, and `resourceContentCreate` and `resourceContentUpdate` then panic: they return
no diagnostic at all, where one error diagnostic is required. No call to the remote API
and no write to the resource data is made before the panic. -/
theorem resourceContent_zeroPosition_panics (sched : Schedule) (env : Env) :
    positionValidateFunc 0 = []
      ∧ zeroPositionRequest.d.container.head? = some zeroPositionFlat
      ∧ serializeRootComponent sched zeroPositionFlat = .panic
      ∧ resourceContentCreate sched env zeroPositionRequest
          = .panicked zeroPositionRequest
      ∧ resourceContentUpdate sched env zeroPositionRequest
          = .panicked zeroPositionRequest
      ∧ zeroPositionRequest.calls = [] ∧ zeroPositionRequest.writes = [] :=
  ⟨rfl, rfl, serializeRootComponent_zeroPositionFlat sched,
    ((resourceContent_of_serialize_failure sched env zeroPositionRequest zeroPositionFlat
      rfl).2 (serializeRootComponent_zeroPositionFlat sched)).1,
    ((resourceContent_of_serialize_failure sched env zeroPositionRequest zeroPositionFlat
      rfl).2 (serializeRootComponent_zeroPositionFlat sched)).2,
    rfl, rfl⟩

/-! ## C15 -/

/-- C15: for every integer level `i` the recursion of `resourceContentContainer` ends: the
measure `4 - i` (truncated at 0) strictly decreases at the nested call on `i + 1`, and any
bound on the number of nested calls above that measure lets the call return its descriptor.
The chain of `container` descriptors of the result has exactly `(4 - i) + 1` levels,
counting the empty stub that ends it; so for `i ≥ 1` it has at most 4. -/
theorem resourceContentContainer_terminates (i : Int) :
    (∀ fuel, (4 - i).toNat < fuel →
        resourceContentContainerFuel fuel i = some (resourceContentContainer i))
      ∧ (i ≤ 3 → (4 - (i + 1)).toNat < (4 - i).toNat)
      ∧ (∀ depth, ((resourceContentContainer i).nestedAt depth).isSome = true
          ↔ depth ≤ (4 - i).toNat)
      ∧ (1 ≤ i → (resourceContentContainer i).nestedAt 4 = none) := by
  refine ⟨fun fuel h => resourceContentContainerFuel_eq _ i rfl fuel h, fun h => by omega,
    fun depth => nestedAt_isSome_iff _ i rfl depth, ?_⟩
  intro h1
  have h := (nestedAt_isSome_iff _ i rfl 4).not
  have hlt : ¬ 4 ≤ (4 - i).toNat := by omega
  have := h.2 hlt
  cases hn : (resourceContentContainer i).nestedAt 4 with
  | none => rfl
  | some r => rw [hn] at this; simp at this

/-- C15 at the root level `i = 1`: five calls suffice, the measure drops from 3 to 2, and
the descriptor has levels at depths 0 to 3 and none at depth 4. -/
theorem resourceContentContainer_terminates_witness :
    (∀ fuel, (4 - (1 : Int)).toNat < fuel →
        resourceContentContainerFuel fuel 1 = some (resourceContentContainer 1))
      ∧ ((1 : Int) ≤ 3 → (4 - ((1 : Int) + 1)).toNat < (4 - (1 : Int)).toNat)
      ∧ (∀ depth, ((resourceContentContainer 1).nestedAt depth).isSome = true
          ↔ depth ≤ (4 - (1 : Int)).toNat)
      ∧ ((1 : Int) ≤ 1 → (resourceContentContainer 1).nestedAt 4 = none) :=
  resourceContentContainer_terminates 1

/-! ## C16 -/

/-- C16 as the code has it: for every domain tree `T` that is a container in which every
container, at every depth, has at most one container-typed child, every child is of type
markdown, editor or container, and every component carries only the fields of its own
type, the serializer applied to the entry of `deserializeRootComponent T p` returns, for
every position `p` and under every schedule of key orders, the tree `reallocate T`: the
elements of `T` with every slice `nil` or allocated as the serializer leaves it. It is `T`
itself up to the difference between a `nil` and an empty slice (the two agree once no
slice is `nil`), and exactly `T` when the slices of `T` are already so. -/
theorem roundTrip_restricted (T : Component) (sched : Schedule) (p : Int)
    (hT : restrictedTree T = true) :
    ∃ entry, deserializeRootComponent T p = [entry]
      ∧ serializeRootComponent sched entry = .ok (reallocate T)
      ∧ eraseNil (reallocate T) = eraseNil T
      ∧ (reallocate T = T → serializeRootComponent sched entry = .ok T) := by
  obtain ⟨entry, h1, h2⟩ := roundTrip_of_restricted T hT sched p
  exact ⟨entry, h1, h2, eraseNil_reallocate T, fun h => by rw [h2, h]⟩

/-- C16 (amended) at `restrictedExample`: an editor, a nested container holding a markdown,
and a markdown, with the slices as the serializer allocates them; the round trip is
exact. -/
theorem roundTrip_restricted_witness :
    restrictedTree restrictedExample = true
      ∧ reallocate restrictedExample = restrictedExample
      ∧ ∃ entry, deserializeRootComponent restrictedExample 0 = [entry]
        ∧ serializeRootComponent sourceOrder entry = .ok restrictedExample :=
  ⟨by decide, rfl,
    (roundTrip_restricted restrictedExample sourceOrder 0 (by decide)).imp
      fun _ h => ⟨h.1, h.2.2.2 rfl⟩⟩

/-- C16 as stated fails on the difference between a `nil` and an empty slice. The childless
root container with a `nil` `Components` slice is a restricted tree, and so is the root
whose only child is an editor with `nil` `Languages`, `Validators` and `Items`; for both the
serializer returns a component whose slices are made with `make`, not `nil`, which is not
the tree. -/
theorem roundTrip_restricted_counterexample :
    (restrictedTree nilChildrenTree = true
      ∧ nilChildrenTree.ComponentsNil = true
      ∧ ∃ entry c, deserializeRootComponent nilChildrenTree 0 = [entry]
        ∧ serializeRootComponent sourceOrder entry = .ok c
        ∧ c.ComponentsNil = false
        ∧ c ≠ nilChildrenTree)
    ∧ (restrictedTree nilEditorTree = true
      ∧ ∃ entry c child, deserializeRootComponent nilEditorTree 0 = [entry]
        ∧ serializeRootComponent sourceOrder entry = .ok c
        ∧ c.Components = [child]
        ∧ child.EditorSettings.LanguagesNil = false
        ∧ child.ValidatorsNil = false
        ∧ child.ItemsNil = false
        ∧ c ≠ nilEditorTree) := by
  refine ⟨⟨by decide, rfl, _, _, rfl, rfl, rfl, ?_⟩,
    ⟨by decide, _, _, _, rfl, rfl, rfl, rfl, rfl, rfl, ?_⟩⟩
  · intro h
    have h2 := congrArg Component.ComponentsNil h
    exact Bool.noConfusion h2
  · intro h
    have h2 := congrArg (fun c => (c.Components.map (fun x => x.ValidatorsNil))) h
    have h3 : ([false] : List Bool) = [true] := h2
    exact absurd h3 (by decide)

/-! ## C17 -/

/-- C17: if `serializeRootComponent` returns a component when the keys `markdown`, `editor`
and `container` are processed in the orders of one schedule, it returns the same component
under every other schedule, the orders being free to differ at every nesting level. -/
theorem serializeRootComponent_order_independent (s1 s2 : Schedule)
    (rootComponent : FlatContainer) (c : Component)
    (h : serializeRootComponent s1 rootComponent = .ok c) :
    serializeRootComponent s2 rootComponent = .ok c :=
  serializeRootComponent_schedule_independent rootComponent s1 s2 c h

/-- C17 at `exampleFlat`, from the order markdown, editor, container to its reverse. -/
theorem serializeRootComponent_order_independent_witness :
    serializeRootComponent sourceOrder exampleFlat = .ok exampleTree
      ∧ serializeRootComponent reverseOrder exampleFlat = .ok exampleTree :=
  ⟨rfl, serializeRootComponent_order_independent sourceOrder reverseOrder exampleFlat
    exampleTree rfl⟩

/-! ## C18 -/

/-- C18: when `serializeRootComponent` returns the tree `T` for the flat container `F`, the
markdown list of `deserializeRootComponent T p` is the markdown list of `F` sorted by
ascending position: a rearrangement of its entries, each with its id, content and position,
in strictly increasing order of position. The editor list is the editor list of `F` sorted
in the same way. -/
theorem deserialize_serialize_sorted (sched : Schedule) (rootComponent : FlatContainer)
    (T : Component) (p : Int) (h : serializeRootComponent sched rootComponent = .ok T) :
    ∃ entry, deserializeRootComponent T p = [entry]
      ∧ List.Perm entry.markdown rootComponent.markdown
      ∧ (entry.markdown.map (fun m => m.position)).Pairwise (· < ·)
      ∧ List.Perm entry.editor rootComponent.editor
      ∧ (entry.editor.map (fun e => e.position)).Pairwise (· < ·) := by
  have hperm := levelWellPositioned_of_ok sched rootComponent T h
  obtain ⟨hnd, hpos⟩ := nodup_childPositions_of_ok sched rootComponent T h
  obtain ⟨c2, hc2, -, -, -, -, hmd, hed, -⟩ :=
    serializeRootComponent_level sched rootComponent hperm
      (nested_ok_of_ok sched rootComponent T h)
  rw [h] at hc2
  cases hc2
  have hsortedMd : ((deserializeChildren T.Components 0 ⟨[], [], []⟩).markdown.map
      (fun m => m.position)).Pairwise (· < ·) := by
    simp only [deserializeChildren_markdown, List.nil_append, List.map_map]
    exact pairwise_filter_enumFrom _ _ _
  have hsortedEd : ((deserializeChildren T.Components 0 ⟨[], [], []⟩).editor.map
      (fun e => e.position)).Pairwise (· < ·) := by
    simp only [deserializeChildren_editor, List.nil_append, List.map_map]
    exact pairwise_filter_enumFrom _ _ _
  have hndMd : rootComponent.markdown.Nodup := by
    unfold FlatContainer.childPositions at hnd
    exact List.Nodup.of_map _ (List.nodup_append.1 (List.nodup_append.1 hnd).1).1
  have hndEd : rootComponent.editor.Nodup := by
    unfold FlatContainer.childPositions at hnd
    exact List.Nodup.of_map _ (List.nodup_append.1 (List.nodup_append.1 hnd).1).2.1
  rw [deserializeRootComponent_eq]
  refine ⟨_, rfl, ?_, hsortedMd, ?_, hsortedEd⟩
  · show List.Perm (deserializeChildren T.Components 0 ⟨[], [], []⟩).markdown _
    refine (List.perm_ext_iff_of_nodup (nodup_of_pairwise_lt_position _ _ hsortedMd)
      hndMd).2 ?_
    intro x
    rw [deserialized_markdown,
      mem_filter_enum_map T.Components (fun c => c.Type_ = "markdown") markdownEntry x]
    constructor
    · rintro ⟨i, child, hi, htype, rfl⟩
      rcases child_of_ok sched rootComponent T h i child hi with
        ⟨m, hm, hp, rfl⟩ | ⟨e, -, -, rfl⟩ | ⟨j, k, -, -, hk⟩
      · rw [markdownEntry_markdownComponent m i hp.symm]
        exact hm
      · simp [editorComponent] at htype
      · rw [type_of_ok _ _ _ hk] at htype
        simp at htype
    · intro hx
      have h1 : 1 ≤ x.position := hpos _ (by
        unfold FlatContainer.childPositions
        exact List.mem_append_left _ (List.mem_append_left _
          (List.mem_map_of_mem (fun m => m.position) hx)))
      exact ⟨(x.position - 1).toNat, markdownComponent x, hmd x hx, rfl,
        (markdownEntry_markdownComponent x _ (by omega)).symm⟩
  · show List.Perm (deserializeChildren T.Components 0 ⟨[], [], []⟩).editor _
    refine (List.perm_ext_iff_of_nodup (nodup_of_pairwise_lt_position _ _ hsortedEd)
      hndEd).2 ?_
    intro x
    rw [deserialized_editor,
      mem_filter_enum_map T.Components (fun c => c.Type_ = "editor") editorEntry x]
    constructor
    · rintro ⟨i, child, hi, htype, rfl⟩
      rcases child_of_ok sched rootComponent T h i child hi with
        ⟨m, -, -, rfl⟩ | ⟨e, he, hp, rfl⟩ | ⟨j, k, -, -, hk⟩
      · simp [markdownComponent] at htype
      · rw [editorEntry_editorComponent e i hp.symm]
        exact he
      · rw [type_of_ok _ _ _ hk] at htype
        simp at htype
    · intro hx
      have h1 : 1 ≤ x.position := hpos _ (by
        unfold FlatContainer.childPositions
        exact List.mem_append_left _ (List.mem_append_right _
          (List.mem_map_of_mem (fun e => e.position) hx)))
      exact ⟨(x.position - 1).toNat, editorComponent x, hed x hx, rfl,
        (editorEntry_editorComponent x _ (by omega)).symm⟩

/-- C18 at `exampleFlat`. -/
theorem deserialize_serialize_sorted_witness :
    serializeRootComponent sourceOrder exampleFlat = .ok exampleTree
      ∧ ∃ entry, deserializeRootComponent exampleTree 0 = [entry]
      ∧ List.Perm entry.markdown exampleFlat.markdown
      ∧ (entry.markdown.map (fun m => m.position)).Pairwise (· < ·)
      ∧ List.Perm entry.editor exampleFlat.editor
      ∧ (entry.editor.map (fun e => e.position)).Pairwise (· < ·) :=
  ⟨rfl, deserialize_serialize_sorted sourceOrder exampleFlat exampleTree 0 rfl⟩

/-! ## C19 -/

/-- C19: at a level with `N` children in which every declared position `p` satisfies
`1 ≤ p ≤ N`, the index `p - 1` of every write lies in `0..N-1`, so both stores, into the
filled markers and into the children, succeed on slices of length `N`. The level itself
then neither panics nor returns the position-out-of-range error: a panic or such an error
of the call can only be the one of a nested container entry, passed on. -/
theorem serializeRootComponent_index_safe (sched : Schedule) (rootComponent : FlatContainer)
    (hrange : ∀ p ∈ rootComponent.childPositions,
      1 ≤ p ∧ p ≤ rootComponent.childCount) :
    (∀ p ∈ rootComponent.childPositions,
        0 ≤ p - 1 ∧ p - 1 < rootComponent.childCount
          ∧ ∀ (st : SerializeState) (component : Component),
              st.positions.length = rootComponent.childCount →
              st.childComponents.length = rootComponent.childCount →
              storeAt st.positions (p - 1) true
                  = .ok (st.positions.set (p - 1).toNat true)
                ∧ storeAt st.childComponents (p - 1) component
                  = .ok (st.childComponents.set (p - 1).toNat component))
      ∧ (serializeRootComponent sched rootComponent = .panic →
          ∃ (i : Nat) (k : FlatContainer), rootComponent.container[i]? = some k
            ∧ serializeRootComponent (sched.nested i) k = .panic)
      ∧ (∀ (q : Int) (n : Nat),
          serializeRootComponent sched rootComponent = .error (.positionTooLarge q n) →
          ∃ (i : Nat) (k : FlatContainer), rootComponent.container[i]? = some k
            ∧ serializeRootComponent (sched.nested i) k
                = .error (.positionTooLarge q n)) := by
  have hjs : ∀ job ∈ jobs sched rootComponent,
      1 ≤ job.1 ∧ job.1 ≤ rootComponent.childCount := fun job hjob =>
    hrange _ (mem_childPositions_of_job sched rootComponent job hjob)
  have hrun := runJobs_inRange rootComponent.childCount (jobs sched rootComponent)
    (SerializeState.init rootComponent.childCount) (by simp [SerializeState.init])
    (by simp [SerializeState.init]) hjs
  refine ⟨?_, ?_, ?_⟩
  · intro p hp
    obtain ⟨h1, h2⟩ := hrange p hp
    refine ⟨by omega, by omega, ?_⟩
    intro st component hpl hcl
    exact ⟨storeAt_inRange _ _ _ h1 (by omega), storeAt_inRange _ _ _ h1 (by omega)⟩
  · intro hpanic
    rw [serializeRootComponent_eq] at hpanic
    rcases hrun with ⟨st2, hst⟩ | ⟨job, hjob, hj, -⟩ | ⟨job, -, e, -, hrune⟩
    · rw [hst, Outcome.bind_ok] at hpanic
      exact absurd hpanic (finish_ne_panic _ _ _ _)
    · obtain ⟨i, k, hk, hjk⟩ := nested_of_job_not_built sched rootComponent job hjob
        (by intro c hc; rw [hj] at hc; cases hc)
      exact ⟨i, k, hk, by rw [← hjk, hj]⟩
    · rw [hrune] at hpanic
      cases hpanic
  · intro q n herr
    rw [serializeRootComponent_eq] at herr
    rcases hrun with ⟨st2, hst⟩ | ⟨job, -, -, hrunp⟩ | ⟨job, hjob, e, hj, hrune⟩
    · rw [hst, Outcome.bind_ok] at herr
      exact absurd herr (finish_ne_positionTooLarge _ _ _ _ _ _)
    · rw [hrunp] at herr
      cases herr
    · rw [hrune, Outcome.bind_error] at herr
      cases herr
      obtain ⟨i, k, hk, hjk⟩ := nested_of_job_not_built sched rootComponent job hjob
        (by intro c hc; rw [hj] at hc; cases hc)
      exact ⟨i, k, hk, by rw [← hjk, hj]⟩

/-- C19 at `duplicateFlat`, whose positions 1, 2, 2 all lie in `1..3`. -/
theorem serializeRootComponent_index_safe_witness :
    (∀ p ∈ duplicateFlat.childPositions, 1 ≤ p ∧ p ≤ duplicateFlat.childCount)
      ∧ (∀ p ∈ duplicateFlat.childPositions,
          0 ≤ p - 1 ∧ p - 1 < duplicateFlat.childCount)
      ∧ serializeRootComponent sourceOrder duplicateFlat ≠ .panic :=
  ⟨by decide,
    fun p hp =>
      ⟨((serializeRootComponent_index_safe sourceOrder duplicateFlat (by decide)).1 p hp).1,
        ((serializeRootComponent_index_safe sourceOrder duplicateFlat (by decide)).1 p hp).2.1⟩,
    fun h => by
      obtain ⟨i, k, hk, -⟩ :=
        (serializeRootComponent_index_safe sourceOrder duplicateFlat (by decide)).2.1 h
      cases i <;> simp [duplicateFlat] at hk⟩

end Provider
